import Mathlib

/-!
Verification of the metric upsert engine of alswl/cron-manager
(`internal/exporter/metric.go` and `internal/exporter/exporter.go`).

Strings are modelled as `List Char` (`Str`).  Go's `regexp` operations in
the source only use patterns of the shape `QuoteMeta(lit)` or
`QuoteMeta(lit) ++ ".*\n"` or `QuoteMeta(lit) ++ " (\d+(?:\.\d+)?)"`, so
they are embedded as explicit scanning functions with RE2's
leftmost-match, greedy semantics for exactly those shapes.  The file
system is modelled as the optional content of the single exporter file
(`Option Str`, `none` = file absent); directory creation has no effect on
file content and is not modelled.  Lock acquisition is modelled by a
boolean `lockErr` flag that tells whether `locker.Lock()` returned an
error.
-/

namespace CronManager

abbrev Str := List Char

/-- Shorthand turning a Lean string literal into the `List Char` model. -/
def lit (s : String) : Str := s.data

/-- Whether a character list contains a newline character. -/
def hasNL : Str → Bool
  | [] => false
  | c :: rest => c = '\n' || hasNL rest

/-- `strStarts p s` is true iff `p` is a prefix of `s` (Go
`strings.HasPrefix` / an anchored literal regexp match). -/
def strStarts : Str → Str → Bool
  | [], _ => true
  | _ :: _, [] => false
  | a :: p, b :: s => a = b && strStarts p s

/-- `containsSub pat s`: `pat` occurs as a contiguous substring of `s`
(`regexp.MustCompile(regexp.QuoteMeta(pat)).Match(s)`). -/
def containsSub (pat : Str) : Str → Bool
  | [] => pat.isEmpty
  | c :: rest => strStarts pat (c :: rest) || containsSub pat rest

/-- `strings.ReplaceAll s (String.singleton pat) repl` for a
one-character pattern: every occurrence of the character `pat` is
replaced by `repl`. -/
def replaceAllChar (pat : Char) (repl : Str) : Str → Str
  | [] => []
  | c :: rest => (if c = pat then repl else [c]) ++ replaceAllChar pat repl rest

/-- `strings.ReplaceAll` for a two-character pattern `[p1, p2]`:
non-overlapping occurrences are replaced left to right. -/
def replaceAllStr2 (p1 p2 : Char) (repl : Str) : Str → Str
  | [] => []
  | [c] => [c]
  | c1 :: c2 :: rest =>
    if c1 = p1 ∧ c2 = p2 then repl ++ replaceAllStr2 p1 p2 repl rest
    else c1 :: replaceAllStr2 p1 p2 repl (c2 :: rest)

/-- `escapeLabelValue` from `metric.go`: the three substitutions are
applied in this fixed order: backslash first (innermost), then double
quote, then newline (outermost). -/
def escapeLabelValue (s : Str) : Str :=
  replaceAllChar '\n' (lit "\\n")
    (replaceAllChar '\"' (lit "\\\"")
      (replaceAllChar '\\' (lit "\\\\") s))

/-- `strings.Join` with separator `","`. -/
def joinComma : List Str → Str
  | [] => []
  | [x] => x
  | x :: xs => x ++ ',' :: joinComma xs

/-- `buildLabelString` from `metric.go`.  Go iterates the label map in an
unspecified order; the embedding takes the labels as a list in iteration
order (the spec records that this order is part of the sample identity). -/
def buildLabelString (jobName : Str) (labels : List (Str × Str)) : Str :=
  joinComma ((lit "name=\"" ++ escapeLabelValue jobName ++ ['\"']) ::
    labels.map (fun kv => escapeLabelValue kv.1 ++ lit "=\"" ++ escapeLabelValue kv.2 ++ ['\"']))

/-- Prometheus metric kind (`MetricType` in `metric.go`). -/
inductive MetricType where
  | gauge
  | counter
deriving DecidableEq

/-- The string rendering of a `MetricType` (Go `string(metricType)`). -/
def MetricType.render : MetricType → Str
  | .gauge => lit "gauge"
  | .counter => lit "counter"

/-- The `# HELP` header line for a metric (`helpData` in
`addMetricHeaders`). -/
def helpDataFor (m help : Str) : Str := lit "# HELP " ++ m ++ ' ' :: help

/-- The `# TYPE` header line for a metric (`typeData` in
`addMetricHeaders`). -/
def typeDataFor (m : Str) (t : MetricType) : Str := lit "# TYPE " ++ m ++ ' ' :: t.render

/-- First half of `addMetricHeaders`: append the `# HELP` line when it
does not already occur as a substring of the content. -/
def addHelpHeader (content m help : Str) : Str :=
  if containsSub (helpDataFor m help) content then content
  else content ++ helpDataFor m help ++ ['\n']

/-- Second half of `addMetricHeaders`: append the `# TYPE` line when it
does not already occur as a substring of the content extended by the
first half. -/
def addTypeHeader (content m : Str) (t : MetricType) : Str :=
  if containsSub (typeDataFor m t) content then content
  else content ++ typeDataFor m t ++ ['\n']

/-- `addMetricHeaders` from `metric.go`: appends the `# HELP` line and
then the `# TYPE` line, each only when it does not already occur as a
substring of the (progressively extended) content. -/
def addMetricHeaders (content fullMetricName : Str) (metricType : MetricType) (help : Str) : Str :=
  addTypeHeader (addHelpHeader content fullMetricName help) fullMetricName metricType

/-- `readOrCreateFile` from `metric.go`: an absent (or unreadable) file
is read as empty content; the creation of the empty file is immaterial
here because every caller overwrites the file afterwards. -/
def readOrCreateFile (file : Option Str) : Str :=
  match file with
  | none => []
  | some c => c

/-- Drop everything up to and including the first newline (the rest of
the line consumed by a greedy `.*\n` after a match). -/
def dropThroughNewline : Str → Str
  | [] => []
  | c :: rest => if c = '\n' then rest else dropThroughNewline rest

/-- RE2 `Match` for the pattern `QuoteMeta(needle) ++ ".*\n"`: some
occurrence of `needle` is followed (on the rest of the input) by a
newline.  (`.` does not match a newline, so the `.*\n` part succeeds iff
a newline occurs after the occurrence of `needle`.) -/
def matchesLinePat (needle : Str) : Str → Bool
  | [] => false
  | c :: rest =>
    (strStarts needle (c :: rest) && hasNL ((c :: rest).drop needle.length))
      || matchesLinePat needle rest

/-- RE2 `ReplaceAll` for the pattern `QuoteMeta(needle) ++ ".*\n"`:
each leftmost, non-overlapping match (the occurrence of `needle`
together with the greedy rest of its line, newline included) is replaced
by `repl`, and scanning resumes after the match. -/
def replaceAllLinePat (needle repl : Str) : Str → Str
  | [] => []
  | c :: rest =>
    if h : (!needle.isEmpty && strStarts needle (c :: rest)
        && hasNL ((c :: rest).drop needle.length)) = true then
      repl ++ replaceAllLinePat needle repl (dropThroughNewline ((c :: rest).drop needle.length))
    else
      c :: replaceAllLinePat needle repl rest
termination_by s => s.length
decreasing_by
  · simp only [List.length_cons]
    have h1 : (dropThroughNewline ((c :: rest).drop needle.length)).length
        ≤ ((c :: rest).drop needle.length).length := by
      generalize (c :: rest).drop needle.length = t
      induction t with
      | nil => simp [dropThroughNewline]
      | cons d t ih =>
        simp only [dropThroughNewline]
        split
        · simp
        · simpa using Nat.le_succ_of_le ih
    have h2 : ((c :: rest).drop needle.length).length = rest.length + 1 - needle.length := by
      simp
    have h3 : 1 ≤ needle.length := by
      simp only [Bool.and_eq_true, Bool.not_eq_true'] at h
      rcases h with ⟨⟨hne, _⟩, _⟩
      cases needle with
      | nil => simp [List.isEmpty] at hne
      | cons a p => simp
    omega
  · simp only [List.length_cons]
    omega

/-- Greedy capture of `(\d+(?:\.\d+)?)` at the current position:
a maximal nonempty digit run, optionally extended by a dot and a second
maximal nonempty digit run. -/
def numCapture (s : Str) : Option Str :=
  let d1 := s.takeWhile Char.isDigit
  if d1.isEmpty then none
  else
    let rest := s.drop d1.length
    if strStarts ['.'] rest then
      let d2 := (rest.drop 1).takeWhile Char.isDigit
      if d2.isEmpty then some d1 else some (d1 ++ '.' :: d2)
    else some d1

/-- RE2 `FindSubmatch` for the counter pattern
`QuoteMeta(name ++ "\x7b" ++ labels ++ "\x7d ") ++ "(\d+(?:\.\d+)?)"`:
the value captured at the leftmost position where the literal part is
followed by at least one digit. -/
def findCounterValue (needleSp : Str) : Str → Option Str
  | [] => none
  | c :: rest =>
    if strStarts needleSp (c :: rest) then
      match numCapture ((c :: rest).drop needleSp.length) with
      | some v => some v
      | none => findCounterValue needleSp rest
    else
      findCounterValue needleSp rest

/-- Numeric value of a digit string, most significant digit first. -/
def digitsToNat (ds : Str) : Nat :=
  ds.foldl (fun a c => a * 10 + (c.toNat - '0'.toNat)) 0

/-- `strconv.ParseInt(s, 10, 64)`: optional sign, nonempty digit run,
error when the value does not fit in a signed 64-bit integer. -/
def parseIntGo (s : Str) : Option Int :=
  let (neg, ds) :=
    match s with
    | '+' :: r => (false, r)
    | '-' :: r => (true, r)
    | r => (false, r)
  if ds.isEmpty || !ds.all Char.isDigit then none
  else
    let v : Int := if neg then -(digitsToNat ds : Int) else (digitsToNat ds : Int)
    if v < -(2 ^ 63) || v > 2 ^ 63 - 1 then none else some v

/-- `strconv.ParseFloat(s, 64)` modelled for plain decimal literals
(optional sign, digits with at most one decimal point, no exponent /
inf / nan forms, which never reach this code path): the result is the
exact value as a scaled integer `(num, k)` meaning `num / 10^k`.  This
is an approximation: Go converts to the nearest binary float64 (and
errors on out-of-range values), so for inputs such as `"0.125"` or
`"1.005"` the exact-decimal model and Go's float64 pipeline round
differently.  No theorem below relies on this definition's value at a
general input; the claims only use it at concrete inputs where it
provably agrees with Go, or assert the replaced line's shape with the
new value existentially quantified. -/
def parseFloatGo (s : Str) : Option (Int × Nat) :=
  let (neg, r1) :=
    match s with
    | '+' :: r => (false, r)
    | '-' :: r => (true, r)
    | r => (false, r)
  let ip := r1.takeWhile Char.isDigit
  match r1.drop ip.length with
  | [] =>
    if ip.isEmpty then none
    else some ((if neg then -(digitsToNat ip : Int) else (digitsToNat ip : Int)), 0)
  | '.' :: fr =>
    let fp := fr.takeWhile Char.isDigit
    if !(fr.drop fp.length).isEmpty then none
    else if ip.isEmpty && fp.isEmpty then none
    else
      let n : Nat := digitsToNat ip * 10 ^ fp.length + digitsToNat fp
      some ((if neg then -(n : Int) else (n : Int)), fp.length)
  | _ => none

/-- Decimal rendering of a natural number. -/
def natToStr (n : Nat) : Str := Nat.toDigits 10 n

/-- `fmt.Sprintf("%d", i)` for an in-range signed integer. -/
def intToStr (i : Int) : Str :=
  if i < 0 then '-' :: natToStr (-i).toNat else natToStr i.toNat

/-- Two-digit zero-padded rendering of `n < 100`. -/
def pad2 (n : Nat) : Str :=
  if n < 10 then '0' :: natToStr n else natToStr n

/-- `fmt.Sprintf("%.2f", v)` for the exact scaled decimal `num / 10^k`:
round to two fractional digits (exact decimal halves rounding toward
positive infinity) and print with exactly two fractional digits.  This
approximates Go's `%.2f`, which rounds the binary float64 with ties to
even; the two differ at decimal ties such as `1.125`, so theorems below
use this only at concrete inputs where it agrees with Go. -/
def formatF2 (num : Int) (k : Nat) : Str :=
  let n100 : Int := Int.fdiv (200 * num + 10 ^ k) (2 * 10 ^ k)
  if n100 < 0 then
    '-' :: (natToStr ((-n100).toNat / 100) ++ '.' :: pad2 ((-n100).toNat % 100))
  else
    natToStr (n100.toNat / 100) ++ '.' :: pad2 (n100.toNat % 100)

/-- `MetricWriter.incrementValue` from `metric.go`: values containing a
dot go through `ParseFloat` and are reformatted with two fractional
digits; other values go through `ParseInt`, with `value + 1` wrapping
around in signed 64-bit arithmetic as in Go; both branches fall back to
`"1"` on a parse error.  The float branch inherits the exact-decimal
approximation of `parseFloatGo`/`formatF2`, so no theorem below asserts
its output at a general input — only at concrete inputs where the
approximation provably agrees with Go. -/
def incrementValue (currentStr : Str) : Str :=
  if currentStr.contains '.' then
    match parseFloatGo currentStr with
    | some (num, k) => formatF2 (num + 10 ^ k) k
    | none => lit "1"
  else
    match parseIntGo currentStr with
    | some n => intToStr ((n + 1 + 2 ^ 63) % 2 ^ 64 - 2 ^ 63)
    | none => lit "1"

namespace MetricWriter

/-- `MetricWriter.writeMetricNoLock` from `metric.go`: build the label
string and the candidate sample line, read (or create) the file, then
either `ReplaceAll` on the line pattern when it matches, or append the
missing headers followed by the new sample line.  The returned string is
the content written back to the file. -/
def writeMetricNoLock (file : Option Str) (fullMetricName : Str) (metricType : MetricType)
    (jobName : Str) (labels : List (Str × Str)) (value help : Str) : Str :=
  let labelStr := buildLabelString jobName labels
  let metricLine := fullMetricName ++ '\x7b' :: labelStr ++ '\x7d' :: ' ' :: value
  let input := readOrCreateFile file
  let needle := fullMetricName ++ '\x7b' :: labelStr ++ ['\x7d']
  if matchesLinePat needle input then
    replaceAllLinePat needle (metricLine ++ ['\n']) input
  else
    addMetricHeaders input fullMetricName metricType help ++ metricLine ++ ['\n']

/-- `MetricWriter.WriteMetric` from `metric.go`: a lock-acquisition
error is only logged, and the write proceeds regardless (`lockErr` does
not influence the outcome). -/
def WriteMetric (lockErr : Bool) (file : Option Str) (fullMetricName : Str)
    (metricType : MetricType) (jobName : Str) (labels : List (Str × Str))
    (value help : Str) : Option Str :=
  some (writeMetricNoLock file fullMetricName metricType jobName labels value help)

/-- `MetricWriter.IncrementCounter` from `metric.go`: on a lock error it
logs and returns without touching the file; on an absent file it writes
value `"1"` through `writeMetricNoLock`; otherwise it captures the
current numeric value with the counter pattern, and either replaces the
matched line with the incremented value or appends a fresh counter line
with value `"1"` (after the header check). -/
def IncrementCounter (lockErr : Bool) (file : Option Str) (fullMetricName jobName : Str)
    (labels : List (Str × Str)) (help : Str) : Option Str :=
  if lockErr then file
  else
    match file with
    | none => some (writeMetricNoLock none fullMetricName MetricType.counter jobName labels (lit "1") help)
    | some input =>
      let labelStr := buildLabelString jobName labels
      let needleSp := fullMetricName ++ '\x7b' :: labelStr ++ '\x7d' :: [' ']
      match findCounterValue needleSp input with
      | some currentStr =>
        let newValue := incrementValue currentStr
        let oldLine := needleSp ++ currentStr
        let newLine := needleSp ++ newValue
        some (replaceAllLinePat oldLine (newLine ++ ['\n']) input)
      | none =>
        let metricLine := needleSp ++ lit "1"
        some (addMetricHeaders input fullMetricName MetricType.counter help ++ metricLine ++ ['\n'])

end MetricWriter

/-- The part of the `Exporter` configuration the metric-writing claims
depend on (`config` in `exporter.go`); the directory / filename fields
only select the path of the single file modelled here. -/
structure ExpConfig where
  metricName : Str
  metricDisabled : Bool

/-- The full metric name computed by `Exporter.writeMetric`: prepend
`basePrefix ++ "_"` unless the name already starts with `basePrefix`
(`strings.HasPrefix`). -/
def fullMetricNameFor (basePrefix metricName : Str) : Str :=
  if strStarts basePrefix metricName then metricName
  else basePrefix ++ '_' :: metricName

namespace Exporter

/-- `Exporter.writeMetric` from `exporter.go`: no-op when disabled,
otherwise idempotent prefixing and delegation to
`MetricWriter.WriteMetric`. -/
def writeMetric (cfg : ExpConfig) (lockErr : Bool) (file : Option Str) (metricName : Str)
    (metricType : MetricType) (jobName : Str) (labels : List (Str × Str))
    (value help : Str) : Option Str :=
  if cfg.metricDisabled then file
  else
    MetricWriter.WriteMetric lockErr file (fullMetricNameFor cfg.metricName metricName)
      metricType jobName labels value help

/-- `Exporter.WriteGauge` from `exporter.go`. -/
def WriteGauge (cfg : ExpConfig) (lockErr : Bool) (file : Option Str)
    (metricName jobName value help : Str) : Option Str :=
  writeMetric cfg lockErr file metricName MetricType.gauge jobName [] value help

/-- `Exporter.WriteGaugeWithLabels` from `exporter.go`. -/
def WriteGaugeWithLabels (cfg : ExpConfig) (lockErr : Bool) (file : Option Str)
    (metricName jobName : Str) (labels : List (Str × Str)) (value help : Str) : Option Str :=
  writeMetric cfg lockErr file metricName MetricType.gauge jobName labels value help

/-- `Exporter.WriteCounter` from `exporter.go`. -/
def WriteCounter (cfg : ExpConfig) (lockErr : Bool) (file : Option Str)
    (metricName jobName : Str) (labels : List (Str × Str)) (value help : Str) : Option Str :=
  writeMetric cfg lockErr file metricName MetricType.counter jobName labels value help

/-- The legacy dimension-to-metric-name table of
`Exporter.WriteToExporter`. -/
def metricMap : List (Str × Str) :=
  [ (lit "failed", lit "failed"),
    (lit "exit_code", lit "exit_code"),
    (lit "duration", lit "duration_seconds"),
    (lit "run", lit "running"),
    (lit "last", lit "last_run_timestamp_seconds") ]

/-- The help-text table of `Exporter.WriteToExporter`, with its fallback
for an empty entry. -/
def helpTextFor (metricName : Str) : Str :=
  match List.lookup metricName
      [ (lit "failed", lit "Whether the job failed (1 = failed, 0 = success)"),
        (lit "exit_code", lit "Exit code of the last job execution"),
        (lit "duration_seconds", lit "Duration of the last job execution in seconds"),
        (lit "running", lit "Whether the job is currently running (1 = running, 0 = finished)"),
        (lit "last_run_timestamp_seconds", lit "Timestamp of the last job execution") ] with
  | some h => if h.isEmpty then lit "Cron job execution metrics" else h
  | none => lit "Cron job execution metrics"

/-- `Exporter.WriteToExporter` from `exporter.go` (legacy API): known
dimensions map to canonical gauge metrics, unknown dimensions fall back
to the generic `crontab` metric with a `dimension` label. -/
def WriteToExporter (cfg : ExpConfig) (lockErr : Bool) (file : Option Str)
    (jobName label metric : Str) : Option Str :=
  match List.lookup label metricMap with
  | none =>
    writeMetric cfg lockErr file (lit "crontab") MetricType.gauge jobName
      [(lit "dimension", label)] metric (lit "Cron job execution metrics")
  | some metricName =>
    writeMetric cfg lockErr file metricName MetricType.gauge jobName [] metric
      (helpTextFor metricName)

/-- `Exporter.IncrementCounter` from `exporter.go`: no-op when disabled;
note that the full metric name is always `basePrefix ++ "_" ++
metricName`, without the `HasPrefix` check of `writeMetric`. -/
def IncrementCounter (cfg : ExpConfig) (lockErr : Bool) (file : Option Str)
    (metricName jobName : Str) (labels : List (Str × Str)) (help : Str) : Option Str :=
  if cfg.metricDisabled then file
  else
    MetricWriter.IncrementCounter lockErr file (cfg.metricName ++ '_' :: metricName)
      jobName labels help

end Exporter

/-! ### Observers used to state the properties -/

/-- Concatenate newline-free lines into newline-terminated file
content. -/
def joinLines : List Str → Str
  | [] => []
  | l :: ls => l ++ '\n' :: joinLines ls

/-- Split file content at newlines; a trailing fragment without a
newline becomes a final line of its own. -/
def splitLines : Str → List Str
  | [] => []
  | c :: rest =>
    if c = '\n' then [] :: splitLines rest
    else
      match splitLines rest with
      | [] => [[c]]
      | l :: ls => (c :: l) :: ls

/-- Number of lines of `file` that start with `p`. -/
def linesStartingWith (p : Str) (file : Option Str) : Nat :=
  match file with
  | none => 0
  | some c => ((splitLines c).filter (fun l => strStarts p l)).length

/-- The needle used by the writer to locate the sample line of a
(metric name, label string) identity: `name ++ "\x7b" ++ labels ++ "\x7d"`. -/
def needleFor (m jobName : Str) (labels : List (Str × Str)) : Str :=
  m ++ '\x7b' :: buildLabelString jobName labels ++ ['\x7d']

/-- Leftmost occurrence of `needle` in `l`: `some (before, after)` with
`l = before ++ needle ++ after` and no occurrence starting earlier,
`none` when `needle` does not occur in `l`. -/
def splitFirst (needle : Str) : Str → Option (Str × Str)
  | [] => none
  | c :: rest =>
    if strStarts needle (c :: rest) then some ([], (c :: rest).drop needle.length)
    else
      match splitFirst needle rest with
      | some (b, a) => some (c :: b, a)
      | none => none

/-- The effect of `ReplaceAll` on a single newline-free line: when the
needle occurs, everything from its leftmost occurrence to the end of the
line is replaced by `nl`; otherwise the line is unchanged. -/
def rewriteLine (needle nl l : Str) : Str :=
  match splitFirst needle l with
  | some (b, _) => b ++ nl
  | none => l

/-! ### Basic lemmas about the string primitives -/

theorem hasNL_append (a b : Str) : hasNL (a ++ b) = (hasNL a || hasNL b) := by
  induction a with
  | nil => simp [hasNL]
  | cons c a ih => simp [hasNL, ih, Bool.or_assoc]

theorem hasNL_iff_mem (s : Str) : hasNL s = true ↔ '\n' ∈ s := by
  induction s with
  | nil => simp [hasNL]
  | cons c s ih =>
    simp only [hasNL, Bool.or_eq_true, ih, List.mem_cons, decide_eq_true_eq]
    constructor
    · rintro (h | h)
      · exact Or.inl h.symm
      · exact Or.inr h
    · rintro (h | h)
      · exact Or.inl h.symm
      · exact Or.inr h

theorem hasNL_false_head {c : Char} {s : Str} (h : hasNL (c :: s) = false) :
    c ≠ '\n' ∧ hasNL s = false := by
  simp only [hasNL, Bool.or_eq_false_iff, decide_eq_false_iff_not] at h
  exact h

theorem hasNL_false_of_append_left {a b : Str} (h : hasNL (a ++ b) = false) :
    hasNL a = false := by
  rw [hasNL_append] at h
  exact (Bool.or_eq_false_iff.mp h).1

theorem hasNL_false_of_append_right {a b : Str} (h : hasNL (a ++ b) = false) :
    hasNL b = false := by
  rw [hasNL_append] at h
  exact (Bool.or_eq_false_iff.mp h).2

theorem hasNL_false_drop {s : Str} (n : Nat) (h : hasNL s = false) :
    hasNL (s.drop n) = false := by
  cases h' : hasNL (s.drop n) with
  | false => rfl
  | true =>
    exact absurd ((hasNL_iff_mem s).mpr (List.mem_of_mem_drop ((hasNL_iff_mem _).mp h')))
      (by simp [h])

theorem strStarts_iff (p s : Str) : strStarts p s = true ↔ ∃ t, s = p ++ t := by
  induction p generalizing s with
  | nil =>
    constructor
    · intro _
      exact ⟨s, rfl⟩
    · intro _
      rfl
  | cons a p ih =>
    cases s with
    | nil =>
      simp only [strStarts]
      constructor
      · intro h
        cases h
      · rintro ⟨t, ht⟩
        cases ht
    | cons b s =>
      simp only [strStarts, Bool.and_eq_true, decide_eq_true_eq, ih, List.cons_append,
        List.cons.injEq]
      constructor
      · rintro ⟨rfl, t, rfl⟩
        exact ⟨t, rfl, rfl⟩
      · rintro ⟨t, rfl, rfl⟩
        exact ⟨rfl, t, rfl⟩

theorem strStarts_append (p t : Str) : strStarts p (p ++ t) = true :=
  (strStarts_iff p (p ++ t)).mpr ⟨t, rfl⟩

theorem strStarts_length_le {p s : Str} (h : strStarts p s = true) : p.length ≤ s.length := by
  obtain ⟨t, rfl⟩ := (strStarts_iff p s).mp h
  simp

theorem strStarts_line {p : Str} (a : Str) {b : Str} (hp : hasNL p = false) :
    strStarts p (a ++ '\n' :: b) = strStarts p a := by
  induction p generalizing a with
  | nil => simp [strStarts]
  | cons c p ih =>
    obtain ⟨hc, hp'⟩ := hasNL_false_head hp
    cases a with
    | nil =>
      simp only [List.nil_append, strStarts]
      simp [hc]
    | cons d a =>
      simp only [List.cons_append, strStarts, List.append_eq]
      rw [ih a hp']

theorem dropThroughNewline_line (a b : Str) (h : hasNL a = false) :
    dropThroughNewline (a ++ '\n' :: b) = b := by
  induction a with
  | nil => simp [dropThroughNewline]
  | cons c a ih =>
    obtain ⟨hc, ha⟩ := hasNL_false_head h
    simp only [List.cons_append, dropThroughNewline, if_neg hc]
    exact ih ha

theorem takeWhile_digits_line (a : Str) (b : Str) (h : hasNL a = false) :
    (a ++ '\n' :: b).takeWhile Char.isDigit = a.takeWhile Char.isDigit := by
  induction a with
  | nil => simp [List.takeWhile_cons]
  | cons c a ih =>
    obtain ⟨_, ha⟩ := hasNL_false_head h
    simp only [List.cons_append, List.takeWhile_cons, ih ha]

theorem takeWhile_length_le (p : Char → Bool) (s : Str) : (s.takeWhile p).length ≤ s.length := by
  induction s with
  | nil => simp
  | cons c s ih =>
    rw [List.takeWhile_cons]
    split
    · simpa using ih
    · simp

theorem numCapture_line (a b : Str) (h : hasNL a = false) :
    numCapture (a ++ '\n' :: b) = numCapture a := by
  unfold numCapture
  rw [takeWhile_digits_line a b h]
  by_cases hd : (a.takeWhile Char.isDigit).isEmpty
  · simp [hd]
  · simp only [hd, if_false]
    have hlen : (a.takeWhile Char.isDigit).length ≤ a.length := takeWhile_length_le _ a
    rw [List.drop_append_of_le_length hlen]
    rw [strStarts_line (a.drop (a.takeWhile Char.isDigit).length) (by decide)]
    by_cases hdot : strStarts ['.'] (a.drop (a.takeWhile Char.isDigit).length) = true
    · simp only [hdot, if_true]
      obtain ⟨r, hr⟩ := (strStarts_iff _ _).mp hdot
      have hrnl : hasNL r = false := by
        have := hasNL_false_drop (a.takeWhile Char.isDigit).length h
        rw [hr] at this
        exact hasNL_false_of_append_right this
      rw [hr]
      simp only [List.singleton_append, List.cons_append, List.append_eq, List.drop_one,
        List.tail_cons, List.nil_append]
      rw [takeWhile_digits_line r b hrnl]
    · simp only [Bool.not_eq_true] at hdot
      simp [hdot]

theorem strStarts_append_right_irrel {p y : Str} (h : p.length ≤ y.length) (x x' : Str) :
    strStarts p (y ++ x) = strStarts p (y ++ x') := by
  induction p generalizing y with
  | nil => simp [strStarts]
  | cons a p ih =>
    cases y with
    | nil => simp at h
    | cons d y =>
      simp only [List.cons_append, strStarts, List.append_eq]
      have h' : p.length ≤ y.length := by
        simp only [List.length_cons] at h
        omega
      rw [ih h']

/-! ### Lemmas about `splitFirst` -/

theorem splitFirst_eq_some {needle l b a : Str} (h : splitFirst needle l = some (b, a)) :
    l = b ++ needle ++ a := by
  induction l generalizing b a with
  | nil => simp [splitFirst] at h
  | cons c rest ih =>
    by_cases hs : strStarts needle (c :: rest) = true
    · rw [splitFirst, if_pos hs] at h
      obtain ⟨t, ht⟩ := (strStarts_iff _ _).mp hs
      injection h with h'
      obtain ⟨hb, ha⟩ := Prod.mk.inj h'
      subst hb
      rw [ht] at ha ⊢
      rw [List.drop_left] at ha
      rw [← ha]
      simp
    · rw [splitFirst, if_neg hs] at h
      rcases hsf : splitFirst needle rest with _ | ⟨b', a'⟩ <;> rw [hsf] at h
      · cases h
      · injection h with h'
        obtain ⟨hb, ha⟩ := Prod.mk.inj h'
        subst hb
        subst ha
        rw [List.cons_append, List.cons_append, ← ih hsf]

theorem splitFirst_transfer {needle l b a : Str} (hne : needle ≠ [])
    (h : splitFirst needle l = some (b, a)) (s : Str) :
    splitFirst needle (b ++ needle ++ s) = some (b, s) := by
  induction l generalizing b a with
  | nil => simp [splitFirst] at h
  | cons c rest ih =>
    by_cases hs : strStarts needle (c :: rest) = true
    · rw [splitFirst, if_pos hs] at h
      injection h with h'
      obtain ⟨hb, _⟩ := Prod.mk.inj h'
      subst hb
      simp only [List.nil_append]
      cases needle with
      | nil => exact absurd rfl hne
      | cons n0 np =>
        rw [List.cons_append, splitFirst]
        rw [if_pos (by rw [← List.cons_append]; exact strStarts_append (n0 :: np) s)]
        rw [← List.cons_append, List.drop_left]
    · rw [splitFirst, if_neg hs] at h
      rcases hsf : splitFirst needle rest with _ | ⟨b', a'⟩ <;> rw [hsf] at h
      · cases h
      · injection h with h'
        obtain ⟨hb, ha⟩ := Prod.mk.inj h'
        subst hb
        have hrest := splitFirst_eq_some hsf
        have hcond : strStarts needle (c :: (b' ++ needle ++ s)) = false := by
          have h1 : needle.length ≤ (c :: (b' ++ needle)).length := by
            simp only [List.length_cons, List.length_append]
            omega
          have h2 := strStarts_append_right_irrel (p := needle) (y := c :: (b' ++ needle)) h1 s a'
          have h3 : (c :: (b' ++ needle)) ++ s = c :: (b' ++ needle ++ s) := by
            simp [List.append_assoc]
          have h4 : (c :: (b' ++ needle)) ++ a' = c :: rest := by
            rw [hrest]
            simp [List.append_assoc]
          rw [h3, h4] at h2
          rw [h2]
          exact Bool.not_eq_true _ ▸ hs
        have hih := ih hsf
        simp only [List.append_assoc, List.cons_append] at hcond hih ⊢
        rw [splitFirst, if_neg (by simp [hcond]), hih]

theorem mem_of_splitFirst_some {needle l b a : Str} (h : splitFirst needle l = some (b, a))
    {c : Char} (hc : c ∈ needle) : c ∈ l := by
  rw [splitFirst_eq_some h]
  simp [hc]

/-! ### Lifting the scanning functions to lists of newline-free lines -/

theorem isEmpty_false_of_ne_nil {needle : Str} (hne : needle ≠ []) : needle.isEmpty = false := by
  cases needle with
  | nil => exact absurd rfl hne
  | cons a b => rfl

theorem bool_eq_false_of_not_true {b : Bool} (h : ¬ b = true) : b = false := by
  cases b
  · rfl
  · exact absurd rfl h

theorem joinLines_append (a b : List Str) : joinLines (a ++ b) = joinLines a ++ joinLines b := by
  induction a with
  | nil => simp [joinLines]
  | cons l a ih => simp [joinLines, ih]

theorem splitLines_line (l rest : Str) (hl : hasNL l = false) :
    splitLines (l ++ '\n' :: rest) = l :: splitLines rest := by
  induction l with
  | nil => simp [splitLines]
  | cons c l' ih =>
    obtain ⟨hc, hl'⟩ := hasNL_false_head hl
    rw [List.cons_append, splitLines, if_neg hc, ih hl']

theorem splitLines_joinLines (ls : List Str) (h : ∀ l ∈ ls, hasNL l = false) :
    splitLines (joinLines ls) = ls := by
  induction ls with
  | nil => simp [joinLines, splitLines]
  | cons l ls ih =>
    rw [joinLines, splitLines_line l _ (h l (by simp)), ih (fun x hx => h x (by simp [hx]))]

theorem matchesLinePat_line (needle l rest : Str) (hne : needle ≠ [])
    (hnm : hasNL needle = false) (hl : hasNL l = false) :
    matchesLinePat needle (l ++ '\n' :: rest)
      = ((splitFirst needle l).isSome || matchesLinePat needle rest) := by
  induction l with
  | nil =>
    simp only [List.nil_append, splitFirst, Option.isSome_none, Bool.false_or]
    rw [matchesLinePat]
    have hfalse : strStarts needle ('\n' :: rest) = false := by
      cases needle with
      | nil => exact absurd rfl hne
      | cons n0 np =>
        obtain ⟨hn0, _⟩ := hasNL_false_head hnm
        simp [strStarts, hn0]
    simp [hfalse]
  | cons c l' ih =>
    obtain ⟨_, hl'⟩ := hasNL_false_head hl
    rw [List.cons_append, matchesLinePat, ih hl']
    by_cases hs : strStarts needle (c :: l') = true
    · have hs' : strStarts needle (c :: (l' ++ '\n' :: rest)) = true := by
        rw [← List.cons_append, strStarts_line _ hnm]
        exact hs
      have hlen : needle.length ≤ (c :: l').length := strStarts_length_le hs
      have hdrop : (c :: (l' ++ '\n' :: rest)).drop needle.length
          = (c :: l').drop needle.length ++ '\n' :: rest := by
        rw [← List.cons_append]
        exact List.drop_append_of_le_length hlen
      have hnl2 : hasNL ((c :: (l' ++ '\n' :: rest)).drop needle.length) = true := by
        rw [hdrop, hasNL_append]
        simp [hasNL]
      rw [splitFirst, if_pos hs]
      simp [hs', hnl2]
    · have hsf : strStarts needle (c :: l') = false := bool_eq_false_of_not_true hs
      have hs' : strStarts needle (c :: (l' ++ '\n' :: rest)) = false := by
        rw [← List.cons_append, strStarts_line _ hnm]
        exact hsf
      rw [splitFirst, if_neg (by simp [hsf])]
      rcases hsp : splitFirst needle l' with _ | ⟨b, a⟩ <;> simp [hs']

theorem matchesLinePat_joinLines (needle : Str) (ls : List Str) (hne : needle ≠ [])
    (hnm : hasNL needle = false) (h : ∀ l ∈ ls, hasNL l = false) :
    matchesLinePat needle (joinLines ls) = ls.any (fun l => (splitFirst needle l).isSome) := by
  induction ls with
  | nil => simp [joinLines, matchesLinePat]
  | cons l ls ih =>
    rw [joinLines, matchesLinePat_line needle l _ hne hnm (h l (by simp)),
      ih (fun x hx => h x (by simp [hx]))]
    simp

theorem replaceAllLinePat_line (needle repl l rest : Str) (hne : needle ≠ [])
    (hnm : hasNL needle = false) (hl : hasNL l = false) :
    replaceAllLinePat needle repl (l ++ '\n' :: rest)
      = match splitFirst needle l with
        | some (b, _) => b ++ repl ++ replaceAllLinePat needle repl rest
        | none => l ++ '\n' :: replaceAllLinePat needle repl rest := by
  induction l with
  | nil =>
    simp only [List.nil_append, splitFirst]
    rw [replaceAllLinePat]
    have hfalse : strStarts needle ('\n' :: rest) = false := by
      cases needle with
      | nil => exact absurd rfl hne
      | cons n0 np =>
        obtain ⟨hn0, _⟩ := hasNL_false_head hnm
        simp [strStarts, hn0]
    rw [dif_neg (by simp [hfalse])]
  | cons c l' ih =>
    obtain ⟨_, hl'⟩ := hasNL_false_head hl
    rw [List.cons_append, replaceAllLinePat]
    by_cases hs : strStarts needle (c :: l') = true
    · have hs' : strStarts needle (c :: (l' ++ '\n' :: rest)) = true := by
        rw [← List.cons_append, strStarts_line _ hnm]
        exact hs
      have hlen : needle.length ≤ (c :: l').length := strStarts_length_le hs
      have hdrop : (c :: (l' ++ '\n' :: rest)).drop needle.length
          = (c :: l').drop needle.length ++ '\n' :: rest := by
        rw [← List.cons_append]
        exact List.drop_append_of_le_length hlen
      have hnl2 : hasNL ((c :: (l' ++ '\n' :: rest)).drop needle.length) = true := by
        rw [hdrop, hasNL_append]
        simp [hasNL]
      rw [dif_pos (by simp [isEmpty_false_of_ne_nil hne, hs', hnl2])]
      rw [splitFirst, if_pos hs]
      have hdtn : dropThroughNewline ((c :: (l' ++ '\n' :: rest)).drop needle.length) = rest := by
        rw [hdrop]
        exact dropThroughNewline_line _ _ (hasNL_false_drop needle.length hl)
      rw [hdtn]
      simp
    · have hsf : strStarts needle (c :: l') = false := bool_eq_false_of_not_true hs
      have hs' : strStarts needle (c :: (l' ++ '\n' :: rest)) = false := by
        rw [← List.cons_append, strStarts_line _ hnm]
        exact hsf
      rw [dif_neg (by simp [hs'])]
      rw [ih hl']
      rw [splitFirst, if_neg (by simp [hsf])]
      rcases hsp : splitFirst needle l' with _ | ⟨b, a⟩
      · simp
      · simp

theorem replaceAllLinePat_joinLines (needle nl : Str) (ls : List Str) (hne : needle ≠ [])
    (hnm : hasNL needle = false) (h : ∀ l ∈ ls, hasNL l = false) :
    replaceAllLinePat needle (nl ++ ['\n']) (joinLines ls)
      = joinLines (ls.map (rewriteLine needle nl)) := by
  induction ls with
  | nil => rw [joinLines, List.map_nil, joinLines, replaceAllLinePat]
  | cons l ls ih =>
    rw [joinLines, replaceAllLinePat_line needle _ l _ hne hnm (h l (by simp)),
      List.map_cons, joinLines]
    rw [ih (fun x hx => h x (by simp [hx]))]
    unfold rewriteLine
    rcases hsp : splitFirst needle l with _ | ⟨b, a⟩
    · simp
    · simp

theorem findCounterValue_line (needleSp l rest : Str) (hne : needleSp ≠ [])
    (hnm : hasNL needleSp = false) (hl : hasNL l = false) :
    findCounterValue needleSp (l ++ '\n' :: rest)
      = match findCounterValue needleSp l with
        | some v => some v
        | none => findCounterValue needleSp rest := by
  induction l with
  | nil =>
    have hfalse : strStarts needleSp ('\n' :: rest) = false := by
      cases needleSp with
      | nil => exact absurd rfl hne
      | cons n0 np =>
        obtain ⟨hn0, _⟩ := hasNL_false_head hnm
        simp [strStarts, hn0]
    simp only [List.nil_append]
    conv_lhs => rw [findCounterValue]
    rw [if_neg (by simp [hfalse])]
    rfl
  | cons c l' ih =>
    obtain ⟨_, hl'⟩ := hasNL_false_head hl
    rw [List.cons_append, findCounterValue]
    by_cases hs : strStarts needleSp (c :: l') = true
    · have hs' : strStarts needleSp (c :: (l' ++ '\n' :: rest)) = true := by
        rw [← List.cons_append, strStarts_line _ hnm]
        exact hs
      have hlen : needleSp.length ≤ (c :: l').length := strStarts_length_le hs
      have hdrop : (c :: (l' ++ '\n' :: rest)).drop needleSp.length
          = (c :: l').drop needleSp.length ++ '\n' :: rest := by
        rw [← List.cons_append]
        exact List.drop_append_of_le_length hlen
      rw [if_pos hs', hdrop,
        numCapture_line _ _ (hasNL_false_drop needleSp.length hl)]
      rw [findCounterValue, if_pos hs]
      rcases hnc : numCapture ((c :: l').drop needleSp.length) with _ | v
      · simp only
        rw [ih hl']
      · simp
    · have hsf : strStarts needleSp (c :: l') = false := bool_eq_false_of_not_true hs
      have hs' : strStarts needleSp (c :: (l' ++ '\n' :: rest)) = false := by
        rw [← List.cons_append, strStarts_line _ hnm]
        exact hsf
      rw [if_neg (by simp [hs']), ih hl', findCounterValue, if_neg (by simp [hsf])]

/-- First line-level counter-capture over a list of lines. -/
def findFirstLine (needleSp : Str) : List Str → Option Str
  | [] => none
  | l :: ls =>
    match findCounterValue needleSp l with
    | some v => some v
    | none => findFirstLine needleSp ls

theorem findCounterValue_joinLines (needleSp : Str) (ls : List Str) (hne : needleSp ≠ [])
    (hnm : hasNL needleSp = false) (h : ∀ l ∈ ls, hasNL l = false) :
    findCounterValue needleSp (joinLines ls) = findFirstLine needleSp ls := by
  induction ls with
  | nil => simp [joinLines, findCounterValue, findFirstLine]
  | cons l ls ih =>
    rw [joinLines, findCounterValue_line needleSp l _ hne hnm (h l (by simp)),
      ih (fun x hx => h x (by simp [hx])), findFirstLine]

/-! ### Lemmas about `rewriteLine` and unfoldings of the writer -/

theorem rewriteLine_none {needle nl l : Str} (h : splitFirst needle l = none) :
    rewriteLine needle nl l = l := by
  unfold rewriteLine
  rw [h]

theorem rewriteLine_some {needle nl l b a : Str} (h : splitFirst needle l = some (b, a)) :
    rewriteLine needle nl l = b ++ nl := by
  unfold rewriteLine
  rw [h]

theorem splitFirst_self_append (needle t : Str) (hne : needle ≠ []) :
    splitFirst needle (needle ++ t) = some ([], t) := by
  cases needle with
  | nil => exact absurd rfl hne
  | cons n0 np =>
    rw [List.cons_append, splitFirst,
      if_pos (by rw [← List.cons_append]; exact strStarts_append _ t),
      ← List.cons_append, List.drop_left]

theorem rewriteLine_idem {needle l : Str} (u : Str) (hne : needle ≠ []) :
    rewriteLine needle (needle ++ u) (rewriteLine needle (needle ++ u) l)
      = rewriteLine needle (needle ++ u) l := by
  rcases hsp : splitFirst needle l with _ | ⟨b, a⟩
  · rw [rewriteLine_none hsp, rewriteLine_none hsp]
  · rw [rewriteLine_some hsp]
    have h2 := splitFirst_transfer hne hsp u
    rw [List.append_assoc] at h2
    rw [rewriteLine_some h2]

theorem writeMetricNoLock_eq (file : Option Str) (m : Str) (t : MetricType) (job : Str)
    (labels : List (Str × Str)) (v hl : Str) :
    MetricWriter.writeMetricNoLock file m t job labels v hl =
      (if matchesLinePat (needleFor m job labels) (readOrCreateFile file) then
        replaceAllLinePat (needleFor m job labels)
          ((needleFor m job labels ++ ' ' :: v) ++ ['\n']) (readOrCreateFile file)
      else
        addMetricHeaders (readOrCreateFile file) m t hl
          ++ (needleFor m job labels ++ ' ' :: v) ++ ['\n']) := by
  unfold MetricWriter.writeMetricNoLock needleFor
  simp [List.append_assoc]

theorem IncrementCounter_eq_some (file : Str) (m job : Str) (labels : List (Str × Str))
    (hl : Str) :
    MetricWriter.IncrementCounter false (some file) m job labels hl =
      (match findCounterValue (needleFor m job labels ++ [' ']) file with
       | some cur =>
         some (replaceAllLinePat ((needleFor m job labels ++ [' ']) ++ cur)
           (((needleFor m job labels ++ [' ']) ++ incrementValue cur) ++ ['\n']) file)
       | none =>
         some (addMetricHeaders file m MetricType.counter hl
           ++ ((needleFor m job labels ++ [' ']) ++ lit "1") ++ ['\n'])) := by
  have hn : needleFor m job labels ++ [' ']
      = m ++ '\x7b' :: buildLabelString job labels ++ '\x7d' :: [' '] := by
    simp [needleFor, List.append_assoc]
  unfold MetricWriter.IncrementCounter
  simp only [if_neg (by simp : ¬ (false = true))]
  rw [hn]

/-! ### Newline-freedom of escaped label strings, and needle facts -/

theorem replaceAllChar_append (p : Char) (r a b : Str) :
    replaceAllChar p r (a ++ b) = replaceAllChar p r a ++ replaceAllChar p r b := by
  induction a with
  | nil => simp [replaceAllChar]
  | cons c a ih => simp [replaceAllChar, ih]

theorem hasNL_cons_ne {c : Char} (s : Str) (hc : c ≠ '\n') : hasNL (c :: s) = hasNL s := by
  simp [hasNL, hc]

theorem hasNL_replaceAllChar_nl (r s : Str) (hr : hasNL r = false) :
    hasNL (replaceAllChar '\n' r s) = false := by
  induction s with
  | nil => simp [replaceAllChar, hasNL]
  | cons c s ih =>
    rw [replaceAllChar, hasNL_append, ih, Bool.or_false]
    by_cases hc : c = '\n'
    · simp [hc, hr]
    · rw [if_neg hc, hasNL_cons_ne _ hc]
      rfl

theorem hasNL_escapeLabelValue (s : Str) : hasNL (escapeLabelValue s) = false := by
  unfold escapeLabelValue
  exact hasNL_replaceAllChar_nl _ _ (by decide)

theorem hasNL_joinComma (ps : List Str) (h : ∀ p ∈ ps, hasNL p = false) :
    hasNL (joinComma ps) = false := by
  induction ps with
  | nil => simp [joinComma, hasNL]
  | cons p ps ih =>
    cases ps with
    | nil => exact h p (by simp)
    | cons q qs =>
      have hcomma : joinComma (p :: q :: qs) = p ++ ',' :: joinComma (q :: qs) := rfl
      rw [hcomma, hasNL_append, h p (by simp),
        hasNL_cons_ne _ (by decide),
        ih (fun x hx => h x (List.mem_cons_of_mem p hx))]
      rfl

theorem hasNL_buildLabelString (job : Str) (labels : List (Str × Str)) :
    hasNL (buildLabelString job labels) = false := by
  unfold buildLabelString
  apply hasNL_joinComma
  intro p hp
  simp only [List.mem_cons, List.mem_map] at hp
  have e2 : hasNL (['\"'] : Str) = false := by decide
  rcases hp with rfl | ⟨kv, _, rfl⟩
  · have e0 : hasNL (lit "name=\"") = false := by decide
    simp [hasNL_append, hasNL_escapeLabelValue, e0, e2]
  · have e1 : hasNL (lit "=\"") = false := by decide
    simp [hasNL_append, hasNL_escapeLabelValue, e1, e2]

theorem needleFor_ne_nil (m job : Str) (labels : List (Str × Str)) :
    needleFor m job labels ≠ [] := by
  unfold needleFor
  cases m with
  | nil => simp
  | cons c m => simp

theorem hasNL_needleFor (m job : Str) (labels : List (Str × Str)) (hm : hasNL m = false) :
    hasNL (needleFor m job labels) = false := by
  have h1 : hasNL ('\x7b' :: buildLabelString job labels) = false := by
    rw [hasNL_cons_ne _ (by decide), hasNL_buildLabelString]
  have h2 : hasNL (['\x7d'] : Str) = false := by decide
  unfold needleFor
  simp [hasNL_append, hm, h1, h2, hasNL_buildLabelString, hasNL_cons_ne _ (by decide : ('\x7b' : Char) ≠ '\n')]

theorem hasNL_needleSp (m job : Str) (labels : List (Str × Str)) (hm : hasNL m = false) :
    hasNL (needleFor m job labels ++ [' ']) = false := by
  rw [hasNL_append, hasNL_needleFor m job labels hm]
  decide

theorem needleSp_ne_nil (m job : Str) (labels : List (Str × Str)) :
    needleFor m job labels ++ [' '] ≠ [] := by
  cases h : needleFor m job labels ++ [' ']
  · exact absurd h (by simp)
  · simp

/-! ### Extension lemmas for occurrences -/

theorem splitFirst_isSome_of_decomp {needle : Str} (hne : needle ≠ []) {b a l : Str}
    (h : l = b ++ needle ++ a) : (splitFirst needle l).isSome = true := by
  induction b generalizing l with
  | nil =>
    subst h
    rw [List.nil_append, splitFirst_self_append needle a hne]
    rfl
  | cons c b' ih =>
    subst h
    rw [show (c :: b') ++ needle ++ a = c :: (b' ++ needle ++ a) from by simp, splitFirst]
    by_cases hs : strStarts needle (c :: (b' ++ needle ++ a)) = true
    · rw [if_pos hs]
      rfl
    · rw [if_neg hs]
      have := ih (l := b' ++ needle ++ a) rfl
      rcases h2 : splitFirst needle (b' ++ needle ++ a) with _ | ⟨x, y⟩
      · rw [h2] at this
        cases this
      · rfl

theorem splitFirst_extend_none {needle l : Str} (hne : needle ≠ [])
    (h : splitFirst needle l = none) (x : Str) : splitFirst (needle ++ x) l = none := by
  rcases h2 : splitFirst (needle ++ x) l with _ | ⟨b, a⟩
  · rfl
  · have hdec := splitFirst_eq_some h2
    have : (splitFirst needle l).isSome = true :=
      splitFirst_isSome_of_decomp hne (b := b) (a := x ++ a) (by rw [hdec]; simp)
    rw [h] at this
    cases this

/-! ### Generic path lemmas for the writer on line-structured files -/

theorem writeMetric_replaces (lockErr : Bool) (m : Str) (t : MetricType) (job : Str)
    (labels : List (Str × Str)) (v hl : Str) (ls : List Str)
    (hm : hasNL m = false)
    (hlines : ∀ l ∈ ls, hasNL l = false)
    (hmatch : ls.any (fun l => (splitFirst (needleFor m job labels) l).isSome) = true) :
    MetricWriter.WriteMetric lockErr (some (joinLines ls)) m t job labels v hl
      = some (joinLines (ls.map
          (rewriteLine (needleFor m job labels) (needleFor m job labels ++ ' ' :: v)))) := by
  unfold MetricWriter.WriteMetric
  rw [writeMetricNoLock_eq]
  rw [show readOrCreateFile (some (joinLines ls)) = joinLines ls from rfl]
  rw [matchesLinePat_joinLines _ _ (needleFor_ne_nil m job labels)
    (hasNL_needleFor m job labels hm) hlines, hmatch, if_pos rfl]
  rw [replaceAllLinePat_joinLines _ _ _ (needleFor_ne_nil m job labels)
    (hasNL_needleFor m job labels hm) hlines]

theorem writeMetric_appends (lockErr : Bool) (m : Str) (t : MetricType) (job : Str)
    (labels : List (Str × Str)) (v hl : Str) (ls : List Str)
    (hm : hasNL m = false)
    (hlines : ∀ l ∈ ls, hasNL l = false)
    (hmatch : ls.any (fun l => (splitFirst (needleFor m job labels) l).isSome) = false) :
    MetricWriter.WriteMetric lockErr (some (joinLines ls)) m t job labels v hl
      = some (addMetricHeaders (joinLines ls) m t hl
          ++ (needleFor m job labels ++ ' ' :: v) ++ ['\n']) := by
  unfold MetricWriter.WriteMetric
  rw [writeMetricNoLock_eq]
  rw [show readOrCreateFile (some (joinLines ls)) = joinLines ls from rfl]
  rw [matchesLinePat_joinLines _ _ (needleFor_ne_nil m job labels)
    (hasNL_needleFor m job labels hm) hlines, hmatch, if_neg (by simp)]

theorem writeMetric_absent (lockErr : Bool) (m : Str) (t : MetricType) (job : Str)
    (labels : List (Str × Str)) (v hl : Str)
    (hht : containsSub (typeDataFor m t) (helpDataFor m hl ++ ['\n']) = false) :
    MetricWriter.WriteMetric lockErr none m t job labels v hl
      = some (joinLines [helpDataFor m hl, typeDataFor m t,
          needleFor m job labels ++ ' ' :: v]) := by
  unfold MetricWriter.WriteMetric
  rw [writeMetricNoLock_eq]
  rw [show readOrCreateFile none = [] from rfl]
  rw [show matchesLinePat (needleFor m job labels) [] = false from rfl, if_neg (by simp)]
  have h1 : addHelpHeader [] m hl = [] ++ helpDataFor m hl ++ ['\n'] := by
    unfold addHelpHeader
    rw [if_neg (by rw [show containsSub (helpDataFor m hl) [] = false from rfl]; simp)]
  unfold addMetricHeaders
  rw [h1, List.nil_append]
  unfold addTypeHeader
  rw [if_neg (by rw [hht]; simp)]
  simp [joinLines, List.append_assoc]

theorem append_ne_nil_left {a : Str} (b : Str) (ha : a ≠ []) : a ++ b ≠ [] := by
  cases a with
  | nil => exact absurd rfl ha
  | cons c a => simp

theorem IncrementCounter_found (file m job : Str) (labels : List (Str × Str)) (hl cur : Str)
    (hf : findCounterValue (needleFor m job labels ++ [' ']) file = some cur) :
    MetricWriter.IncrementCounter false (some file) m job labels hl
      = some (replaceAllLinePat ((needleFor m job labels ++ [' ']) ++ cur)
          (((needleFor m job labels ++ [' ']) ++ incrementValue cur) ++ ['\n']) file) := by
  rw [IncrementCounter_eq_some, hf]

theorem IncrementCounter_notfound (file m job : Str) (labels : List (Str × Str)) (hl : Str)
    (hf : findCounterValue (needleFor m job labels ++ [' ']) file = none) :
    MetricWriter.IncrementCounter false (some file) m job labels hl
      = some (addMetricHeaders file m MetricType.counter hl
          ++ ((needleFor m job labels ++ [' ']) ++ lit "1") ++ ['\n']) := by
  rw [IncrementCounter_eq_some, hf]

theorem incrementCounter_replaces (m job : Str) (labels : List (Str × Str)) (hl : Str)
    (ls : List Str) (cur : Str)
    (hm : hasNL m = false) (hcur : hasNL cur = false)
    (hlines : ∀ l ∈ ls, hasNL l = false)
    (hfind : findFirstLine (needleFor m job labels ++ [' ']) ls = some cur) :
    MetricWriter.IncrementCounter false (some (joinLines ls)) m job labels hl
      = some (joinLines (ls.map (rewriteLine ((needleFor m job labels ++ [' ']) ++ cur)
          ((needleFor m job labels ++ [' ']) ++ incrementValue cur)))) := by
  rw [IncrementCounter_found (joinLines ls) m job labels hl cur
    (by rw [findCounterValue_joinLines _ _ (needleSp_ne_nil m job labels)
      (hasNL_needleSp m job labels hm) hlines, hfind])]
  rw [replaceAllLinePat_joinLines _ _ _
    (append_ne_nil_left cur (needleSp_ne_nil m job labels))
    (by rw [hasNL_append, hasNL_needleSp m job labels hm, hcur]; rfl) hlines]

theorem incrementCounter_appends (m job : Str) (labels : List (Str × Str)) (hl : Str)
    (ls : List Str)
    (hm : hasNL m = false)
    (hlines : ∀ l ∈ ls, hasNL l = false)
    (hfind : findFirstLine (needleFor m job labels ++ [' ']) ls = none) :
    MetricWriter.IncrementCounter false (some (joinLines ls)) m job labels hl
      = some (addMetricHeaders (joinLines ls) m MetricType.counter hl
          ++ ((needleFor m job labels ++ [' ']) ++ lit "1") ++ ['\n']) := by
  rw [IncrementCounter_notfound (joinLines ls) m job labels hl
    (by rw [findCounterValue_joinLines _ _ (needleSp_ne_nil m job labels)
      (hasNL_needleSp m job labels hm) hlines, hfind])]

/-! ### Escaping: per-character code, scanning decoder, reverse substitutions -/

/-- The per-character code underlying `escapeLabelValue`. -/
def encChar (c : Char) : Str :=
  if c = '\\' then lit "\\\\"
  else if c = '\"' then lit "\\\""
  else if c = '\n' then lit "\\n"
  else [c]

theorem escapeLabelValue_cons (c : Char) (s : Str) :
    escapeLabelValue (c :: s) = encChar c ++ escapeLabelValue s := by
  unfold escapeLabelValue
  rw [show replaceAllChar '\\' (lit "\\\\") (c :: s)
      = (if c = '\\' then lit "\\\\" else [c]) ++ replaceAllChar '\\' (lit "\\\\") s from rfl]
  rw [replaceAllChar_append, replaceAllChar_append]
  congr 1
  by_cases h1 : c = '\\'
  · subst h1
    decide
  · rw [if_neg h1]
    unfold encChar
    rw [if_neg h1]
    by_cases h2 : c = '\"'
    · subst h2
      decide
    · rw [if_neg h2]
      by_cases h3 : c = '\n'
      · subst h3
        decide
      · rw [if_neg h3]
        simp [replaceAllChar, h2, h3]

theorem encChar_ne_nil (c : Char) : encChar c ≠ [] := by
  unfold encChar
  by_cases h1 : c = '\\'
  · rw [if_pos h1]
    decide
  · rw [if_neg h1]
    by_cases h2 : c = '\"'
    · rw [if_pos h2]
      decide
    · rw [if_neg h2]
      by_cases h3 : c = '\n'
      · rw [if_pos h3]
        decide
      · rw [if_neg h3]
        simp

/-- A single left-to-right decoding pass undoing the escape pairs
`\\`, `\"` and `\n`. -/
def unescapeScan : Str → Str
  | [] => []
  | [c] => [c]
  | c1 :: c2 :: r =>
    if c1 = '\\' ∧ c2 = '\\' then '\\' :: unescapeScan r
    else if c1 = '\\' ∧ c2 = '\"' then '\"' :: unescapeScan r
    else if c1 = '\\' ∧ c2 = 'n' then '\n' :: unescapeScan r
    else c1 :: unescapeScan (c2 :: r)

/-- The three reverse substitutions of `escapeLabelValue` applied in
reverse order (undo `\n` first, then `\"`, then `\\`), each as a plain
global `strings.ReplaceAll`-style replacement. -/
def unescapeSubsts (s : Str) : Str :=
  let s1 := replaceAllStr2 '\\' 'n' (lit "\n") s
  let s2 := replaceAllStr2 '\\' '\"' (lit "\"") s1
  replaceAllStr2 '\\' '\\' (lit "\\") s2

theorem unescapeScan_escape (s : Str) : unescapeScan (escapeLabelValue s) = s := by
  induction s with
  | nil => rfl
  | cons c s ih =>
    rw [escapeLabelValue_cons]
    by_cases h1 : c = '\\'
    · subst h1
      rw [show encChar '\\' = ['\\', '\\'] from rfl]
      rw [show (['\\', '\\'] : Str) ++ escapeLabelValue s
        = '\\' :: '\\' :: escapeLabelValue s from rfl]
      rw [unescapeScan, if_pos ⟨rfl, rfl⟩, ih]
    · by_cases h2 : c = '\"'
      · subst h2
        rw [show encChar '\"' = ['\\', '\"'] from rfl]
        rw [show (['\\', '\"'] : Str) ++ escapeLabelValue s
          = '\\' :: '\"' :: escapeLabelValue s from rfl]
        rw [unescapeScan, if_neg (by decide), if_pos ⟨rfl, rfl⟩, ih]
      · by_cases h3 : c = '\n'
        · subst h3
          rw [show encChar '\n' = ['\\', 'n'] from rfl]
          rw [show (['\\', 'n'] : Str) ++ escapeLabelValue s
            = '\\' :: 'n' :: escapeLabelValue s from rfl]
          rw [unescapeScan, if_neg (by decide), if_neg (by decide), if_pos ⟨rfl, rfl⟩, ih]
        · rw [show encChar c = [c] from by simp [encChar, h1, h2, h3]]
          cases s with
          | nil => rfl
          | cons d s' =>
            rw [escapeLabelValue_cons]
            obtain ⟨e0, erest, he⟩ :
                ∃ e0 erest, encChar d ++ escapeLabelValue s' = e0 :: erest := by
              cases henc : encChar d with
              | nil => exact absurd henc (encChar_ne_nil d)
              | cons e0 er => exact ⟨e0, er ++ escapeLabelValue s', by simp⟩
            rw [List.singleton_append, he, unescapeScan,
              if_neg (fun hand => h1 hand.1), if_neg (fun hand => h1 hand.1),
              if_neg (fun hand => h1 hand.1), ← he, ← escapeLabelValue_cons, ih]

/-- Claim C6 (amended): `escapeLabelValue` applies its three
substitutions in the fixed order backslash, double quote, newline, and
the escaping is lossless in the sense that a single left-to-right decode
of the three escape pairs recovers the original string for every input.
(The three reverse substitutions applied in reverse order as global
replacements do not recover every input; see the counterexample.) -/
theorem C6_escape_lossless :
    (∀ s : Str, escapeLabelValue s
        = replaceAllChar '\n' (lit "\\n")
            (replaceAllChar '\"' (lit "\\\"") (replaceAllChar '\\' (lit "\\\\") s)))
    ∧ (∀ s : Str, unescapeScan (escapeLabelValue s) = s) :=
  ⟨fun _ => rfl, unescapeScan_escape⟩

/-- Claim C6 counterexample: for the two-character input backslash-`n`,
applying the three reverse substitutions in reverse order to the escaped
string does not yield the original string, so the claimed recovery
procedure is not lossless for every input. -/
theorem C6_counterexample :
    unescapeSubsts (escapeLabelValue (lit "\\n")) ≠ lit "\\n" := by decide

/-! ### Claim C4: lock-acquisition failure -/

/-- Claim C4 (amended): on the overwrite path (`WriteMetric`) a
lock-acquisition failure is logged and the write still proceeds — the
resulting file state does not depend on whether the lock was obtained;
on the counter-increment path (`IncrementCounter`) a lock-acquisition
failure causes the method to return immediately, leaving the file
unchanged, so the increment is skipped. -/
theorem C4_lock_leniency :
    (∀ (file : Option Str) (m : Str) (t : MetricType) (job : Str)
        (labels : List (Str × Str)) (v hl : Str),
      MetricWriter.WriteMetric true file m t job labels v hl
        = MetricWriter.WriteMetric false file m t job labels v hl)
    ∧ (∀ (file : Option Str) (m job : Str) (labels : List (Str × Str)) (hl : Str),
      MetricWriter.IncrementCounter true file m job labels hl = file) := by
  constructor
  · intro _ _ _ _ _ _ _
    rfl
  · intro _ _ _ _ _
    rfl

/-- Claim C4 counterexample: with a failed lock acquisition,
`IncrementCounter` on an absent file performs no write at all (the file
stays absent), while the same call with the lock obtained creates the
file — so lock-acquisition failure does cause the write to be skipped on
the counter-increment path. -/
theorem C4_counterexample :
    MetricWriter.IncrementCounter true none (lit "crontab_runs") (lit "j") [] (lit "h") = none
    ∧ MetricWriter.IncrementCounter false none (lit "crontab_runs") (lit "j") [] (lit "h")
        ≠ none := by
  constructor
  · rfl
  · decide

/-! ### Claim C5: facade metric-name prefixing -/

/-- Claim C5 (amended): on the gauge/overwrite facade path
(`Exporter.writeMetric`, hence `WriteGauge` / `WriteGaugeWithLabels` /
`WriteCounter` / `WriteToExporter`) the metric name written is the
configured prefix plus an underscore plus the given name, unless the
given name already begins with the prefix, in which case it is used
unchanged — and this naming is idempotent.  The counter-increment facade
path (`Exporter.IncrementCounter`) however always prepends the prefix
and the underscore without any check, so an already-prefixed name is
double-prefixed there. -/
theorem C5_prefixing :
    (∀ base name : Str,
      fullMetricNameFor base (fullMetricNameFor base name) = fullMetricNameFor base name)
    ∧ (∀ (cfg : ExpConfig) (lockErr : Bool) (file : Option Str) (name : Str) (t : MetricType)
        (job : Str) (labels : List (Str × Str)) (v hl : Str),
        cfg.metricDisabled = false →
        Exporter.writeMetric cfg lockErr file name t job labels v hl
          = MetricWriter.WriteMetric lockErr file (fullMetricNameFor cfg.metricName name) t job
              labels v hl)
    ∧ (∀ (cfg : ExpConfig) (lockErr : Bool) (file : Option Str) (name job : Str)
        (labels : List (Str × Str)) (hl : Str),
        cfg.metricDisabled = false →
        Exporter.IncrementCounter cfg lockErr file name job labels hl
          = MetricWriter.IncrementCounter lockErr file (cfg.metricName ++ '_' :: name) job
              labels hl) := by
  refine ⟨?_, ?_, ?_⟩
  · intro base name
    unfold fullMetricNameFor
    by_cases h : strStarts base name = true
    · rw [if_pos h, if_pos h]
    · rw [if_neg h, if_pos (strStarts_append base ('_' :: name))]
  · intro cfg lockErr file name t job labels v hl hd
    unfold Exporter.writeMetric
    rw [if_neg (by rw [hd]; simp)]
  · intro cfg lockErr file name job labels hl hd
    unfold Exporter.IncrementCounter
    rw [if_neg (by rw [hd]; simp)]

/-- Claim C5 counterexample: with prefix `crontab`, the facade's
counter-increment call on the already-prefixed name `crontab_runs`
writes the metric under the double-prefixed name
`crontab_crontab_runs`, and the resulting file has no sample line for
the name `crontab_runs` that the claim requires. -/
theorem C5_counterexample :
    Exporter.IncrementCounter ⟨lit "crontab", false⟩ false none (lit "crontab_runs") (lit "j")
        [] (lit "h")
      = some (lit "# HELP crontab_crontab_runs h\n# TYPE crontab_crontab_runs counter\ncrontab_crontab_runs\x7bname=\"j\"\x7d 1\n")
    ∧ linesStartingWith (lit "crontab_runs\x7b")
        (Exporter.IncrementCounter ⟨lit "crontab", false⟩ false none (lit "crontab_runs")
          (lit "j") [] (lit "h")) = 0 := by
  constructor
  · decide
  · decide

/-- Witness for C5: concrete instantiation of the amended prefixing
theorem. -/
theorem C5_witness :
    (fullMetricNameFor (lit "crontab") (fullMetricNameFor (lit "crontab") (lit "runs"))
      = fullMetricNameFor (lit "crontab") (lit "runs"))
    ∧ Exporter.IncrementCounter ⟨lit "crontab", false⟩ false none (lit "runs") (lit "j") []
        (lit "h")
      = MetricWriter.IncrementCounter false none (lit "crontab" ++ '_' :: lit "runs") (lit "j")
          [] (lit "h") :=
  ⟨C5_prefixing.1 (lit "crontab") (lit "runs"),
    C5_prefixing.2.2 ⟨lit "crontab", false⟩ false none (lit "runs") (lit "j") [] (lit "h") rfl⟩

/-! ### Claim C9: disabled mode is a no-op -/

/-- Claim C9 (confirmed): when the configuration's disabled flag is set,
every metric-writing call on the Exporter facade — `writeMetric`,
`WriteGauge`, `WriteGaugeWithLabels`, `WriteCounter`, `WriteToExporter`
and `IncrementCounter` — returns the storage state (the optional content
of the exporter file) unchanged: nothing is created, read or modified. -/
theorem C9_disabled_noop :
    ∀ (cfg : ExpConfig), cfg.metricDisabled = true →
    ∀ (lockErr : Bool) (file : Option Str) (name : Str) (t : MetricType) (job : Str)
      (labels : List (Str × Str)) (v hl dim : Str),
      Exporter.writeMetric cfg lockErr file name t job labels v hl = file
      ∧ Exporter.WriteGauge cfg lockErr file name job v hl = file
      ∧ Exporter.WriteGaugeWithLabels cfg lockErr file name job labels v hl = file
      ∧ Exporter.WriteCounter cfg lockErr file name job labels v hl = file
      ∧ Exporter.WriteToExporter cfg lockErr file job dim v = file
      ∧ Exporter.IncrementCounter cfg lockErr file name job labels hl = file := by
  intro cfg hd lockErr file name t job labels v hl dim
  have hw : ∀ (name' : Str) (t' : MetricType) (labels' : List (Str × Str)) (v' hl' : Str),
      Exporter.writeMetric cfg lockErr file name' t' job labels' v' hl' = file := by
    intro name' t' labels' v' hl'
    unfold Exporter.writeMetric
    rw [if_pos hd]
  refine ⟨hw name t labels v hl, hw name MetricType.gauge [] v hl,
    hw name MetricType.gauge labels v hl, hw name MetricType.counter labels v hl, ?_, ?_⟩
  · unfold Exporter.WriteToExporter
    cases List.lookup dim Exporter.metricMap
    · exact hw _ MetricType.gauge _ v _
    · exact hw _ MetricType.gauge _ v _
  · unfold Exporter.IncrementCounter
    rw [if_pos hd]

/-- Witness for C9: concrete instantiation with a disabled
configuration and a pre-existing file. -/
theorem C9_witness :
    Exporter.writeMetric ⟨lit "crontab", true⟩ false (some (lit "a\n")) (lit "m")
        MetricType.gauge (lit "j") [] (lit "1") (lit "h") = some (lit "a\n")
    ∧ Exporter.WriteGauge ⟨lit "crontab", true⟩ false (some (lit "a\n")) (lit "m") (lit "j")
        (lit "1") (lit "h") = some (lit "a\n")
    ∧ Exporter.WriteGaugeWithLabels ⟨lit "crontab", true⟩ false (some (lit "a\n")) (lit "m")
        (lit "j") [] (lit "1") (lit "h") = some (lit "a\n")
    ∧ Exporter.WriteCounter ⟨lit "crontab", true⟩ false (some (lit "a\n")) (lit "m") (lit "j")
        [] (lit "1") (lit "h") = some (lit "a\n")
    ∧ Exporter.WriteToExporter ⟨lit "crontab", true⟩ false (some (lit "a\n")) (lit "j")
        (lit "failed") (lit "1") = some (lit "a\n")
    ∧ Exporter.IncrementCounter ⟨lit "crontab", true⟩ false (some (lit "a\n")) (lit "m")
        (lit "j") [] (lit "h") = some (lit "a\n") :=
  C9_disabled_noop ⟨lit "crontab", true⟩ rfl false (some (lit "a\n")) (lit "m")
    MetricType.gauge (lit "j") [] (lit "1") (lit "h") (lit "failed")

theorem map_rewriteLine_id {needle nl : Str} {ls : List Str}
    (h : ∀ l ∈ ls, splitFirst needle l = none) : ls.map (rewriteLine needle nl) = ls := by
  induction ls with
  | nil => rfl
  | cons l ls ih =>
    rw [List.map_cons, rewriteLine_none (h l (by simp)),
      ih (fun x hx => h x (by simp [hx]))]

theorem findFirstLine_append_none (nsp : Str) (pre rest : List Str)
    (h : ∀ l ∈ pre, findCounterValue nsp l = none) :
    findFirstLine nsp (pre ++ rest) = findFirstLine nsp rest := by
  induction pre with
  | nil => rfl
  | cons l pre ih =>
    rw [List.cons_append, findFirstLine, h l (by simp),
      ih (fun x hx => h x (by simp [hx]))]

/-! ### Claim C10: unanchored substring matching -/

/-- Claim C10 (confirmed): the search for an existing sample line is an
unanchored substring match on `name ++ "\x7bqlabels\x7d"`-shaped needles: when
the file's only occurrence of the needle sits inside the sample line of
a different metric whose name ends with the requested name (prefix `p`)
and whose label string is identical, `WriteMetric` rewrites the tail of
that other metric's line to the new value instead of appending a sample
line for the requested metric, and `IncrementCounter`'s value pattern
likewise matches inside that longer-named line: it rewrites that line in
place to `p ++ needle ++ " " ++ w` for some new value `w` and appends
nothing.  The written value is stated existentially in general because
the float64 increment is not modelled exactly; the final conjunct pins
it down on a concrete file, where the metric `barfoo` holds value `5`
and incrementing metric `foo` rewrites the `barfoo` line to value `6`,
exactly as the Go integer path computes. -/
theorem C10_substring_match
    (m job : Str) (labels : List (Str × Str)) (v newv hl : Str) (t : MetricType)
    (p : Str) (pre post : List Str) (lockErr : Bool)
    (hm : hasNL m = false) (hvnl : hasNL v = false)
    (hlines : ∀ l ∈ pre ++ (p ++ needleFor m job labels ++ ' ' :: v) :: post,
      hasNL l = false)
    (hsp : splitFirst (needleFor m job labels) (p ++ needleFor m job labels ++ ' ' :: v)
      = some (p, ' ' :: v))
    (hpre : ∀ l ∈ pre, splitFirst (needleFor m job labels) l = none)
    (hpost : ∀ l ∈ post, splitFirst (needleFor m job labels) l = none)
    (hfindline : findCounterValue (needleFor m job labels ++ [' '])
      (p ++ needleFor m job labels ++ ' ' :: v) = some v)
    (hsp2 : splitFirst ((needleFor m job labels ++ [' ']) ++ v)
      (p ++ needleFor m job labels ++ ' ' :: v) = some (p, []))
    (hprefind : ∀ l ∈ pre, findCounterValue (needleFor m job labels ++ [' ']) l = none) :
    MetricWriter.WriteMetric lockErr
        (some (joinLines (pre ++ (p ++ needleFor m job labels ++ ' ' :: v) :: post)))
        m t job labels newv hl
      = some (joinLines (pre ++ (p ++ (needleFor m job labels ++ ' ' :: newv)) :: post))
    ∧ (∃ w : Str, MetricWriter.IncrementCounter false
        (some (joinLines (pre ++ (p ++ needleFor m job labels ++ ' ' :: v) :: post)))
        m job labels hl
      = some (joinLines (pre
          ++ (p ++ ((needleFor m job labels ++ [' ']) ++ w)) :: post)))
    ∧ MetricWriter.IncrementCounter false
        (some (joinLines [lit "bar" ++ needleFor (lit "foo") (lit "j") [] ++ ' ' :: lit "5"]))
        (lit "foo") (lit "j") [] (lit "h")
      = some (joinLines [lit "bar"
          ++ ((needleFor (lit "foo") (lit "j") [] ++ [' ']) ++ lit "6")]) := by
  refine ⟨?_, ?_, ?_⟩
  · rw [writeMetric_replaces lockErr m t job labels newv hl _ hm hlines
      (List.any_eq_true.mpr ⟨p ++ needleFor m job labels ++ ' ' :: v, by simp,
        by rw [hsp]; rfl⟩)]
    rw [List.map_append, List.map_cons, rewriteLine_some hsp,
      map_rewriteLine_id hpre, map_rewriteLine_id hpost]
  · refine ⟨incrementValue v, ?_⟩
    rw [incrementCounter_replaces m job labels hl _ v hm hvnl hlines
      (by rw [findFirstLine_append_none _ _ _ hprefind, findFirstLine, hfindline])]
    have hpre2 : ∀ l ∈ pre, splitFirst ((needleFor m job labels ++ [' ']) ++ v) l = none := by
      intro l hlmem
      have h1 := splitFirst_extend_none (needleFor_ne_nil m job labels) (hpre l hlmem)
        ([' '] ++ v)
      rw [← List.append_assoc] at h1
      exact h1
    have hpost2 : ∀ l ∈ post, splitFirst ((needleFor m job labels ++ [' ']) ++ v) l
        = none := by
      intro l hlmem
      have h1 := splitFirst_extend_none (needleFor_ne_nil m job labels) (hpost l hlmem)
        ([' '] ++ v)
      rw [← List.append_assoc] at h1
      exact h1
    rw [List.map_append, List.map_cons, rewriteLine_some hsp2,
      map_rewriteLine_id hpre2, map_rewriteLine_id hpost2]
  · rw [incrementCounter_replaces (lit "foo") (lit "j") [] (lit "h") _ (lit "5")
      (by decide) (by decide) (by decide) (by decide)]
    decide

/-- Witness for C10: metric `foo` with job `j` and value `5`, where the
file's single line is the sample line of the metric `barfoo` with the
identical label string. -/
theorem C10_witness :
    (MetricWriter.WriteMetric false
        (some (joinLines ([] ++ (lit "bar" ++ needleFor (lit "foo") (lit "j") []
          ++ ' ' :: lit "5") :: [])))
        (lit "foo") MetricType.gauge (lit "j") [] (lit "0") (lit "h")
      = some (joinLines ([] ++ (lit "bar" ++ (needleFor (lit "foo") (lit "j") []
          ++ ' ' :: lit "0")) :: [])))
    ∧ (∃ w : Str, MetricWriter.IncrementCounter false
        (some (joinLines ([] ++ (lit "bar" ++ needleFor (lit "foo") (lit "j") []
          ++ ' ' :: lit "5") :: [])))
        (lit "foo") (lit "j") [] (lit "h")
      = some (joinLines ([] ++ (lit "bar" ++ ((needleFor (lit "foo") (lit "j") [] ++ [' '])
          ++ w)) :: [])))
    ∧ MetricWriter.IncrementCounter false
        (some (joinLines [lit "bar" ++ needleFor (lit "foo") (lit "j") [] ++ ' ' :: lit "5"]))
        (lit "foo") (lit "j") [] (lit "h")
      = some (joinLines [lit "bar"
          ++ ((needleFor (lit "foo") (lit "j") [] ++ [' ']) ++ lit "6")]) :=
  C10_substring_match (lit "foo") (lit "j") [] (lit "5") (lit "0") (lit "h")
    MetricType.gauge (lit "bar") [] [] false (by decide) (by decide) (by decide) (by decide)
    (by decide) (by decide) (by decide) (by decide) (by decide)

/-! ### Claim C3: counter semantics -/

/-- Claim C3 counterexample: `IncrementCounter` on an existing sample
line whose value is non-numeric does not reset that sample's value to
`"1"`: the counter pattern fails to match, so a second sample line with
value `1` is appended while the non-numeric line stays in place. -/
theorem C3_counterexample :
    MetricWriter.IncrementCounter false
        (some (lit "# HELP cm_runs h\n# TYPE cm_runs counter\ncm_runs\x7bname=\"jj\"\x7d abc\n"))
        (lit "cm_runs") (lit "jj") [] (lit "h")
      = some (lit "# HELP cm_runs h\n# TYPE cm_runs counter\ncm_runs\x7bname=\"jj\"\x7d abc\ncm_runs\x7bname=\"jj\"\x7d 1\n")
    ∧ linesStartingWith (lit "cm_runs\x7bname=\"jj\"\x7d")
        (MetricWriter.IncrementCounter false
          (some (lit "# HELP cm_runs h\n# TYPE cm_runs counter\ncm_runs\x7bname=\"jj\"\x7d abc\n"))
          (lit "cm_runs") (lit "jj") [] (lit "h")) = 2 := by
  constructor
  · decide
  · decide

/-- Claim C3 (amended): `IncrementCounter` on a key whose sample line
(or whole file) is absent writes value `"1"`; on an existing sample line
`needle ++ " " ++ v` whose value `v` is matched by the numeric pattern
it replaces that line in place with `needle ++ " " ++ w` for some new
value `w` — stated existentially in general, because Go computes the
float increment in binary float64 arithmetic, which the exact-decimal
model does not reproduce at every input — and concretely (on the claim's
own examples, where the model provably agrees with Go) an existing value
`"41"` becomes `"42"`, `"3.14"` becomes `"4.14"` and `"1"` becomes
`"2"`, each replaced in place; however, an existing non-numeric value is
not reset in place — a fresh sample line with value `"1"` is appended
instead (see the counterexample). -/
theorem C3_counter_semantics :
    (∀ (m job : Str) (labels : List (Str × Str)) (hl : Str),
      containsSub (typeDataFor m MetricType.counter) (helpDataFor m hl ++ ['\n']) = false →
      MetricWriter.IncrementCounter false none m job labels hl
        = some (joinLines [helpDataFor m hl, typeDataFor m MetricType.counter,
            needleFor m job labels ++ ' ' :: lit "1"]))
    ∧ (∀ (m job : Str) (labels : List (Str × Str)) (hl : Str) (ls : List Str),
      hasNL m = false → (∀ l ∈ ls, hasNL l = false) →
      findFirstLine (needleFor m job labels ++ [' ']) ls = none →
      MetricWriter.IncrementCounter false (some (joinLines ls)) m job labels hl
        = some (addMetricHeaders (joinLines ls) m MetricType.counter hl
            ++ ((needleFor m job labels ++ [' ']) ++ lit "1") ++ ['\n']))
    ∧ (∀ (m job : Str) (labels : List (Str × Str)) (hl v : Str) (pre post : List Str),
      hasNL m = false → hasNL v = false →
      (∀ l ∈ pre ++ ((needleFor m job labels ++ [' ']) ++ v) :: post, hasNL l = false) →
      findCounterValue (needleFor m job labels ++ [' '])
          ((needleFor m job labels ++ [' ']) ++ v) = some v →
      (∀ l ∈ pre, splitFirst (needleFor m job labels) l = none) →
      (∀ l ∈ post, splitFirst (needleFor m job labels) l = none) →
      (∀ l ∈ pre, findCounterValue (needleFor m job labels ++ [' ']) l = none) →
      ∃ w : Str, MetricWriter.IncrementCounter false
          (some (joinLines (pre ++ ((needleFor m job labels ++ [' ']) ++ v) :: post)))
          m job labels hl
        = some (joinLines (pre
            ++ ((needleFor m job labels ++ [' ']) ++ w) :: post)))
    ∧ MetricWriter.IncrementCounter false
        (some (joinLines [(needleFor (lit "cm") (lit "j") [] ++ [' ']) ++ lit "41"]))
        (lit "cm") (lit "j") [] (lit "h")
      = some (joinLines [(needleFor (lit "cm") (lit "j") [] ++ [' ']) ++ lit "42"])
    ∧ MetricWriter.IncrementCounter false
        (some (joinLines [(needleFor (lit "cm") (lit "j") [] ++ [' ']) ++ lit "3.14"]))
        (lit "cm") (lit "j") [] (lit "h")
      = some (joinLines [(needleFor (lit "cm") (lit "j") [] ++ [' ']) ++ lit "4.14"])
    ∧ MetricWriter.IncrementCounter false
        (some (joinLines [(needleFor (lit "cm") (lit "j") [] ++ [' ']) ++ lit "1"]))
        (lit "cm") (lit "j") [] (lit "h")
      = some (joinLines [(needleFor (lit "cm") (lit "j") [] ++ [' ']) ++ lit "2"]) := by
  refine ⟨?_, ?_, ?_, ?_, ?_, ?_⟩
  · intro m job labels hl hht
    have h0 : MetricWriter.IncrementCounter false none m job labels hl
        = MetricWriter.WriteMetric false none m MetricType.counter job labels (lit "1") hl :=
      rfl
    rw [h0, writeMetric_absent false m MetricType.counter job labels (lit "1") hl hht]
  · intro m job labels hl ls hm hlines hfind
    exact incrementCounter_appends m job labels hl ls hm hlines hfind
  · intro m job labels hl v pre post hm hv hlines hfv hpre hpost hprefind
    refine ⟨incrementValue v, ?_⟩
    rw [incrementCounter_replaces m job labels hl _ v hm hv hlines
      (by rw [findFirstLine_append_none _ _ _ hprefind, findFirstLine, hfv])]
    have hself : splitFirst ((needleFor m job labels ++ [' ']) ++ v)
        ((needleFor m job labels ++ [' ']) ++ v) = some ([], []) := by
      have := splitFirst_self_append ((needleFor m job labels ++ [' ']) ++ v) []
        (append_ne_nil_left v (needleSp_ne_nil m job labels))
      rwa [List.append_nil] at this
    have hpre2 : ∀ l ∈ pre, splitFirst ((needleFor m job labels ++ [' ']) ++ v) l = none := by
      intro l hlmem
      have h1 := splitFirst_extend_none (needleFor_ne_nil m job labels) (hpre l hlmem)
        ([' '] ++ v)
      rwa [← List.append_assoc] at h1
    have hpost2 : ∀ l ∈ post, splitFirst ((needleFor m job labels ++ [' ']) ++ v) l
        = none := by
      intro l hlmem
      have h1 := splitFirst_extend_none (needleFor_ne_nil m job labels) (hpost l hlmem)
        ([' '] ++ v)
      rwa [← List.append_assoc] at h1
    rw [List.map_append, List.map_cons, rewriteLine_some hself,
      map_rewriteLine_id hpre2, map_rewriteLine_id hpost2, List.nil_append]
  · rw [incrementCounter_replaces (lit "cm") (lit "j") [] (lit "h") _ (lit "41")
      (by decide) (by decide) (by decide) (by decide)]
    decide
  · rw [incrementCounter_replaces (lit "cm") (lit "j") [] (lit "h") _ (lit "3.14")
      (by decide) (by decide) (by decide) (by decide)]
    decide
  · rw [incrementCounter_replaces (lit "cm") (lit "j") [] (lit "h") _ (lit "1")
      (by decide) (by decide) (by decide) (by decide)]
    decide

/-- Witness for C3: increments on an absent file and on a one-line file
holding the value `3.14`, with the metric `cm` and job `j`. -/
theorem C3_witness :
    MetricWriter.IncrementCounter false none (lit "cm") (lit "j") [] (lit "h")
      = some (joinLines [helpDataFor (lit "cm") (lit "h"),
          typeDataFor (lit "cm") MetricType.counter,
          needleFor (lit "cm") (lit "j") [] ++ ' ' :: lit "1"])
    ∧ (∃ w : Str, MetricWriter.IncrementCounter false
        (some (joinLines ([] ++ ((needleFor (lit "cm") (lit "j") [] ++ [' '])
          ++ lit "3.14") :: [])))
        (lit "cm") (lit "j") [] (lit "h")
      = some (joinLines ([] ++ ((needleFor (lit "cm") (lit "j") [] ++ [' '])
          ++ w) :: []))) :=
  ⟨C3_counter_semantics.1 (lit "cm") (lit "j") [] (lit "h") (by decide),
    C3_counter_semantics.2.2.1 (lit "cm") (lit "j") [] (lit "h") (lit "3.14") [] []
      (by decide) (by decide) (by decide) (by decide) (by decide) (by decide) (by decide)⟩

/-! ### Claim C1: upsert replaces in place -/

/-- Claim C1 counterexample: the file holds exactly one sample line for
the identity `ctr{name="w"}`, with a non-numeric value; after
`IncrementCounter` the file holds two sample lines for that identity,
so the operation did create a second sample line for an existing
identity. -/
theorem C1_counterexample :
    linesStartingWith (lit "ctr\x7bname=\"w\"\x7d")
        (some (lit "# HELP ctr h\n# TYPE ctr counter\nctr\x7bname=\"w\"\x7d oops\n")) = 1
    ∧ linesStartingWith (lit "ctr\x7bname=\"w\"\x7d")
        (MetricWriter.IncrementCounter false
          (some (lit "# HELP ctr h\n# TYPE ctr counter\nctr\x7bname=\"w\"\x7d oops\n"))
          (lit "ctr") (lit "w") [] (lit "h")) = 2 := by
  constructor
  · decide
  · decide

/-- Claim C1 (amended): when the (metric name, label string) identity
already has a sample line in the file — a line that starts with the
needle `name ++ "\x7bqlabels\x7d"` and is the only line containing the needle —
`WriteMetric` replaces that single line in place and creates no second
sample line for the identity; `IncrementCounter` does the same when the
existing value is matched by its numeric pattern, replacing the line
with `needle ++ " " ++ w` for some new value `w` (the value is stated
existentially: the claim is about which lines exist, not about the
arithmetic).  When the existing value is non-numeric, `IncrementCounter`
instead appends a second sample line with value `"1"` for the same
identity (see the counterexample). -/
theorem C1_upsert_in_place :
    (∀ (lockErr : Bool) (m : Str) (t : MetricType) (job : Str) (labels : List (Str × Str))
        (v hl tail : Str) (pre post : List Str),
      hasNL m = false →
      (∀ l ∈ pre ++ (needleFor m job labels ++ tail) :: post, hasNL l = false) →
      (∀ l ∈ pre, splitFirst (needleFor m job labels) l = none) →
      (∀ l ∈ post, splitFirst (needleFor m job labels) l = none) →
      MetricWriter.WriteMetric lockErr
          (some (joinLines (pre ++ (needleFor m job labels ++ tail) :: post)))
          m t job labels v hl
        = some (joinLines (pre ++ (needleFor m job labels ++ ' ' :: v) :: post)))
    ∧ (∀ (m job : Str) (labels : List (Str × Str)) (hl v : Str) (pre post : List Str),
      hasNL m = false → hasNL v = false →
      (∀ l ∈ pre ++ ((needleFor m job labels ++ [' ']) ++ v) :: post, hasNL l = false) →
      findCounterValue (needleFor m job labels ++ [' '])
          ((needleFor m job labels ++ [' ']) ++ v) = some v →
      (∀ l ∈ pre, splitFirst (needleFor m job labels) l = none) →
      (∀ l ∈ post, splitFirst (needleFor m job labels) l = none) →
      (∀ l ∈ pre, findCounterValue (needleFor m job labels ++ [' ']) l = none) →
      ∃ w : Str, MetricWriter.IncrementCounter false
          (some (joinLines (pre ++ ((needleFor m job labels ++ [' ']) ++ v) :: post)))
          m job labels hl
        = some (joinLines (pre
            ++ ((needleFor m job labels ++ [' ']) ++ w) :: post))) := by
  constructor
  · intro lockErr m t job labels v hl tail pre post hm hlines hpre hpost
    have hself : splitFirst (needleFor m job labels) (needleFor m job labels ++ tail)
        = some ([], tail) :=
      splitFirst_self_append (needleFor m job labels) tail (needleFor_ne_nil m job labels)
    rw [writeMetric_replaces lockErr m t job labels v hl _ hm hlines
      (List.any_eq_true.mpr ⟨needleFor m job labels ++ tail, by simp, by rw [hself]; rfl⟩)]
    rw [List.map_append, List.map_cons, rewriteLine_some hself,
      map_rewriteLine_id hpre, map_rewriteLine_id hpost, List.nil_append]
  · intro m job labels hl v pre post hm hv hlines hfv hpre hpost hprefind
    refine ⟨incrementValue v, ?_⟩
    rw [incrementCounter_replaces m job labels hl _ v hm hv hlines
      (by rw [findFirstLine_append_none _ _ _ hprefind, findFirstLine, hfv])]
    have hself : splitFirst ((needleFor m job labels ++ [' ']) ++ v)
        ((needleFor m job labels ++ [' ']) ++ v) = some ([], []) := by
      have := splitFirst_self_append ((needleFor m job labels ++ [' ']) ++ v) []
        (append_ne_nil_left v (needleSp_ne_nil m job labels))
      rwa [List.append_nil] at this
    have hpre2 : ∀ l ∈ pre, splitFirst ((needleFor m job labels ++ [' ']) ++ v) l = none := by
      intro l hlmem
      have h1 := splitFirst_extend_none (needleFor_ne_nil m job labels) (hpre l hlmem)
        ([' '] ++ v)
      rwa [← List.append_assoc] at h1
    have hpost2 : ∀ l ∈ post, splitFirst ((needleFor m job labels ++ [' ']) ++ v) l
        = none := by
      intro l hlmem
      have h1 := splitFirst_extend_none (needleFor_ne_nil m job labels) (hpost l hlmem)
        ([' '] ++ v)
      rwa [← List.append_assoc] at h1
    rw [List.map_append, List.map_cons, rewriteLine_some hself,
      map_rewriteLine_id hpre2, map_rewriteLine_id hpost2, List.nil_append]

/-- Witness for C1: a gauge overwrite of an existing sample line, and a
counter increment of an existing numeric sample line, both replacing in
place. -/
theorem C1_witness :
    MetricWriter.WriteMetric false
        (some (joinLines ([helpDataFor (lit "gm") (lit "h"),
          typeDataFor (lit "gm") MetricType.gauge]
          ++ (needleFor (lit "gm") (lit "j") [] ++ lit " 7") :: [])))
        (lit "gm") MetricType.gauge (lit "j") [] (lit "9") (lit "h")
      = some (joinLines ([helpDataFor (lit "gm") (lit "h"),
          typeDataFor (lit "gm") MetricType.gauge]
          ++ (needleFor (lit "gm") (lit "j") [] ++ ' ' :: lit "9") :: []))
    ∧ (∃ w : Str, MetricWriter.IncrementCounter false
        (some (joinLines ([] ++ ((needleFor (lit "gm") (lit "j") [] ++ [' '])
          ++ lit "41") :: [])))
        (lit "gm") (lit "j") [] (lit "h")
      = some (joinLines ([] ++ ((needleFor (lit "gm") (lit "j") [] ++ [' '])
          ++ w) :: []))) :=
  ⟨C1_upsert_in_place.1 false (lit "gm") MetricType.gauge (lit "j") [] (lit "9") (lit "h")
      (lit " 7") [helpDataFor (lit "gm") (lit "h"), typeDataFor (lit "gm") MetricType.gauge] []
      (by decide) (by decide) (by decide) (by decide),
    C1_upsert_in_place.2 (lit "gm") (lit "j") [] (lit "h") (lit "41") [] []
      (by decide) (by decide) (by decide) (by decide) (by decide) (by decide) (by decide)⟩

/-! ### Claim C7: write `"1"` then `"0"` -/

/-- Claim C7 counterexample: on a file whose only line is the sample
line of the different metric `barfoo2` (whose name ends in the requested
name `foo2`, with identical label string), writing `"1"` then `"0"` for
`foo2` rewrites the tail of the `barfoo2` line instead: the final file
has no sample line for the requested key at all, and the unrelated
`barfoo2` line was changed — contradicting the claim for this file
state. -/
theorem C7_counterexample :
    MetricWriter.WriteMetric false
        (MetricWriter.WriteMetric false (some (lit "barfoo2\x7bname=\"q\"\x7d 5\n"))
          (lit "foo2") MetricType.gauge (lit "q") [] (lit "1") (lit "hh"))
        (lit "foo2") MetricType.gauge (lit "q") [] (lit "0") (lit "hh")
      = some (lit "barfoo2\x7bname=\"q\"\x7d 0\n")
    ∧ linesStartingWith (lit "foo2\x7b") (some (lit "barfoo2\x7bname=\"q\"\x7d 0\n")) = 0 := by
  constructor
  · have e1 : (lit "barfoo2\x7bname=\"q\"\x7d 5\n" : Str)
        = joinLines [lit "bar" ++ needleFor (lit "foo2") (lit "q") [] ++ ' ' :: lit "5"] := by
      decide
    rw [e1, writeMetric_replaces false (lit "foo2") MetricType.gauge (lit "q") [] (lit "1")
      (lit "hh") _ (by decide) (by decide) (by decide)]
    rw [List.map_cons, List.map_nil, rewriteLine_some
      (show splitFirst (needleFor (lit "foo2") (lit "q") [])
        (lit "bar" ++ needleFor (lit "foo2") (lit "q") [] ++ ' ' :: lit "5")
        = some (lit "bar", ' ' :: lit "5") from by decide)]
    have e2 : (joinLines [lit "bar" ++ (needleFor (lit "foo2") (lit "q") [] ++ ' ' :: lit "1")])
        = joinLines [lit "bar" ++ needleFor (lit "foo2") (lit "q") [] ++ ' ' :: lit "1"] := by
      decide
    rw [e2, writeMetric_replaces false (lit "foo2") MetricType.gauge (lit "q") [] (lit "0")
      (lit "hh") _ (by decide) (by decide) (by decide)]
    rw [List.map_cons, List.map_nil, rewriteLine_some
      (show splitFirst (needleFor (lit "foo2") (lit "q") [])
        (lit "bar" ++ needleFor (lit "foo2") (lit "q") [] ++ ' ' :: lit "1")
        = some (lit "bar", ' ' :: lit "1") from by decide)]
    decide
  · decide

/-- Claim C7 (amended): writing `"1"` then `"0"` via `WriteMetric` for
the same (metric, job, labels) leaves exactly one sample line for that
key with final value `"0"` and all other lines unchanged in content and
order, for every file state in which the needle occurs only as the
prefix of the key's single sample line (and, on the append path, does
not occur at all and the header lines do not embed one another).  In
particular, starting from an absent/empty file the first write produces
the `HELP` line, the `TYPE` line, then the sample line with value `1`,
and the second write changes only the sample line's trailing value. -/
theorem C7_write_then_zero :
    (∀ (m : Str) (t : MetricType) (job : Str) (labels : List (Str × Str)) (hl : Str),
      hasNL m = false →
      containsSub (typeDataFor m t) (helpDataFor m hl ++ ['\n']) = false →
      hasNL (helpDataFor m hl) = false → hasNL (typeDataFor m t) = false →
      splitFirst (needleFor m job labels) (helpDataFor m hl) = none →
      splitFirst (needleFor m job labels) (typeDataFor m t) = none →
      MetricWriter.WriteMetric false none m t job labels (lit "1") hl
        = some (joinLines [helpDataFor m hl, typeDataFor m t,
            needleFor m job labels ++ ' ' :: lit "1"])
      ∧ MetricWriter.WriteMetric false
          (MetricWriter.WriteMetric false none m t job labels (lit "1") hl)
          m t job labels (lit "0") hl
        = some (joinLines [helpDataFor m hl, typeDataFor m t,
            needleFor m job labels ++ ' ' :: lit "0"]))
    ∧ (∀ (m : Str) (t : MetricType) (job : Str) (labels : List (Str × Str))
        (hl tail : Str) (pre post : List Str),
      hasNL m = false →
      (∀ l ∈ pre ++ (needleFor m job labels ++ tail) :: post, hasNL l = false) →
      (∀ l ∈ pre, splitFirst (needleFor m job labels) l = none) →
      (∀ l ∈ post, splitFirst (needleFor m job labels) l = none) →
      MetricWriter.WriteMetric false
          (MetricWriter.WriteMetric false
            (some (joinLines (pre ++ (needleFor m job labels ++ tail) :: post)))
            m t job labels (lit "1") hl)
          m t job labels (lit "0") hl
        = some (joinLines (pre ++ (needleFor m job labels ++ ' ' :: lit "0") :: post))) := by
  have replaces : ∀ (m : Str) (t : MetricType) (job : Str) (labels : List (Str × Str))
      (v hl tail : Str) (pre post : List Str),
      hasNL m = false →
      (∀ l ∈ pre ++ (needleFor m job labels ++ tail) :: post, hasNL l = false) →
      (∀ l ∈ pre, splitFirst (needleFor m job labels) l = none) →
      (∀ l ∈ post, splitFirst (needleFor m job labels) l = none) →
      MetricWriter.WriteMetric false
          (some (joinLines (pre ++ (needleFor m job labels ++ tail) :: post)))
          m t job labels v hl
        = some (joinLines (pre ++ (needleFor m job labels ++ ' ' :: v) :: post)) := by
    intro m t job labels v hl tail pre post hm hlines hpre hpost
    have hself : splitFirst (needleFor m job labels) (needleFor m job labels ++ tail)
        = some ([], tail) :=
      splitFirst_self_append (needleFor m job labels) tail (needleFor_ne_nil m job labels)
    rw [writeMetric_replaces false m t job labels v hl _ hm hlines
      (List.any_eq_true.mpr ⟨needleFor m job labels ++ tail, by simp, by rw [hself]; rfl⟩)]
    rw [List.map_append, List.map_cons, rewriteLine_some hself,
      map_rewriteLine_id hpre, map_rewriteLine_id hpost, List.nil_append]
  constructor
  · intro m t job labels hl hm hht hhelpnl htypenl hhelpsf htypesf
    have h1 := writeMetric_absent false m t job labels (lit "1") hl hht
    refine ⟨h1, ?_⟩
    rw [h1]
    have h2 := replaces m t job labels (lit "0") hl (' ' :: lit "1")
      [helpDataFor m hl, typeDataFor m t] [] ?_ ?_ ?_ ?_
    · simpa using h2
    · exact hm
    · intro l hlmem
      have hmem3 : l = helpDataFor m hl ∨ l = typeDataFor m t
          ∨ l = needleFor m job labels ++ ' ' :: lit "1" := by
        simpa using hlmem
      rcases hmem3 with h | h | h
      · rw [h]
        exact hhelpnl
      · rw [h]
        exact htypenl
      · rw [h, hasNL_append, hasNL_needleFor m job labels hm]
        decide
    · intro l hlmem
      rcases List.mem_cons.mp hlmem with h | h
      · rw [h]
        exact hhelpsf
      · rw [List.mem_singleton.mp h]
        exact htypesf
    · intro l hlmem
      cases hlmem
  · intro m t job labels hl tail pre post hm hlines hpre hpost
    rw [replaces m t job labels (lit "1") hl tail pre post hm hlines hpre hpost]
    have hlines2 : ∀ l ∈ pre ++ (needleFor m job labels ++ ' ' :: lit "1") :: post,
        hasNL l = false := by
      intro l hlmem
      rcases List.mem_append.mp hlmem with h | h
      · exact hlines l (List.mem_append.mpr (Or.inl h))
      · rcases List.mem_cons.mp h with h' | h'
        · rw [h', hasNL_append, hasNL_needleFor m job labels hm]
          decide
        · exact hlines l (List.mem_append.mpr (Or.inr (List.mem_cons.mpr (Or.inr h'))))
    exact replaces m t job labels (lit "0") hl (' ' :: lit "1") pre post hm hlines2 hpre hpost

/-- Witness for C7: the empty-file scenario with metric `wm`. -/
theorem C7_witness :
    MetricWriter.WriteMetric false none (lit "wm") MetricType.gauge (lit "j") [] (lit "1")
        (lit "h")
      = some (joinLines [helpDataFor (lit "wm") (lit "h"),
          typeDataFor (lit "wm") MetricType.gauge,
          needleFor (lit "wm") (lit "j") [] ++ ' ' :: lit "1"])
    ∧ MetricWriter.WriteMetric false
        (MetricWriter.WriteMetric false none (lit "wm") MetricType.gauge (lit "j") []
          (lit "1") (lit "h"))
        (lit "wm") MetricType.gauge (lit "j") [] (lit "0") (lit "h")
      = some (joinLines [helpDataFor (lit "wm") (lit "h"),
          typeDataFor (lit "wm") MetricType.gauge,
          needleFor (lit "wm") (lit "j") [] ++ ' ' :: lit "0"]) :=
  C7_write_then_zero.1 (lit "wm") MetricType.gauge (lit "j") [] (lit "h")
    (by decide) (by decide) (by decide) (by decide) (by decide) (by decide)

/-! ### Claim C8: idempotence -/

theorem joinLines_singleton (x : Str) : joinLines [x] = x ++ ['\n'] := rfl

theorem addHelpHeader_lines (ls : List Str) (m hl : Str) :
    addHelpHeader (joinLines ls) m hl
      = joinLines (ls ++ if containsSub (helpDataFor m hl) (joinLines ls) then []
          else [helpDataFor m hl]) := by
  unfold addHelpHeader
  by_cases b : containsSub (helpDataFor m hl) (joinLines ls) = true
  · rw [if_pos b, if_pos b, List.append_nil]
  · rw [if_neg b, if_neg b, joinLines_append, joinLines_singleton, List.append_assoc]

theorem addTypeHeader_lines (ls : List Str) (m : Str) (t : MetricType) :
    addTypeHeader (joinLines ls) m t
      = joinLines (ls ++ if containsSub (typeDataFor m t) (joinLines ls) then []
          else [typeDataFor m t]) := by
  unfold addTypeHeader
  by_cases b : containsSub (typeDataFor m t) (joinLines ls) = true
  · rw [if_pos b, if_pos b, List.append_nil]
  · rw [if_neg b, if_neg b, joinLines_append, joinLines_singleton, List.append_assoc]

theorem hasNL_rewriteLine {needle nl l : Str} (hl : hasNL l = false)
    (hnl : hasNL nl = false) : hasNL (rewriteLine needle nl l) = false := by
  rcases hsp : splitFirst needle l with _ | ⟨b, a⟩
  · rw [rewriteLine_none hsp]
    exact hl
  · rw [rewriteLine_some hsp, hasNL_append, hnl, Bool.or_false]
    have hd := splitFirst_eq_some hsp
    rw [hd] at hl
    exact hasNL_false_of_append_left (hasNL_false_of_append_left hl)

theorem rewriteLine_keeps_needle {needle u l b a : Str} (hne : needle ≠ [])
    (hsp : splitFirst needle l = some (b, a)) :
    (splitFirst needle (rewriteLine needle (needle ++ u) l)).isSome = true := by
  rw [rewriteLine_some hsp]
  exact splitFirst_isSome_of_decomp hne (b := b) (a := u) (by rw [List.append_assoc])

theorem map_eq_self_of_eq {f : Str → Str} {ls : List Str} (h : ∀ l ∈ ls, f l = l) :
    ls.map f = ls := by
  induction ls with
  | nil => rfl
  | cons l ls ih =>
    rw [List.map_cons, h l (by simp), ih (fun x hx => h x (by simp [hx]))]

theorem mem_opt {b : Prop} [Decidable b] {x l : Str}
    (h : l ∈ (if b then ([] : List Str) else [x])) : l = x := by
  by_cases hb : b
  · rw [if_pos hb] at h
    cases h
  · rw [if_neg hb] at h
    exact List.mem_singleton.mp h

/-- Claim C8 counterexample: `WriteMetric` is not idempotent for every
value: a value containing a newline, written twice from an absent file,
yields different content after the second write (the replacement only
consumes up to the first newline of the previously written sample
"line" and re-appends the full value, growing the file). -/
theorem C8_counterexample :
    MetricWriter.WriteMetric false
        (MetricWriter.WriteMetric false none (lit "mx") MetricType.gauge (lit "jx") []
          (lit "1\n1") (lit "hx"))
        (lit "mx") MetricType.gauge (lit "jx") [] (lit "1\n1") (lit "hx")
      ≠ MetricWriter.WriteMetric false none (lit "mx") MetricType.gauge (lit "jx") []
          (lit "1\n1") (lit "hx") := by
  have h1 := writeMetric_absent false (lit "mx") MetricType.gauge (lit "jx") [] (lit "1\n1")
    (lit "hx") (by decide)
  have h2 : joinLines [helpDataFor (lit "mx") (lit "hx"),
      typeDataFor (lit "mx") MetricType.gauge,
      needleFor (lit "mx") (lit "jx") [] ++ ' ' :: lit "1\n1"]
      = joinLines [helpDataFor (lit "mx") (lit "hx"),
        typeDataFor (lit "mx") MetricType.gauge,
        needleFor (lit "mx") (lit "jx") [] ++ lit " 1", lit "1"] := by
    decide
  rw [h1, h2]
  rw [writeMetric_replaces false (lit "mx") MetricType.gauge (lit "jx") [] (lit "1\n1")
    (lit "hx") _ (by decide) (by decide) (by decide)]
  decide

/-- Claim C8 (amended): `WriteMetric` is idempotent — performing the
identical write twice yields file content identical to performing it
once — for every metric name, kind, job, label list, value and help text
that are newline-free and whose header lines do not contain the sample
needle, on every newline-terminated file state (and on an absent file).
Values or help texts containing newlines break idempotence (see the
counterexample). -/
theorem C8_idempotent :
    (∀ (lockErr1 lockErr2 : Bool) (m : Str) (t : MetricType) (job : Str)
        (labels : List (Str × Str)) (v hl : Str) (ls : List Str),
      hasNL m = false → hasNL v = false →
      hasNL (helpDataFor m hl) = false → hasNL (typeDataFor m t) = false →
      splitFirst (needleFor m job labels) (helpDataFor m hl) = none →
      splitFirst (needleFor m job labels) (typeDataFor m t) = none →
      (∀ l ∈ ls, hasNL l = false) →
      MetricWriter.WriteMetric lockErr2
          (MetricWriter.WriteMetric lockErr1 (some (joinLines ls)) m t job labels v hl)
          m t job labels v hl
        = MetricWriter.WriteMetric lockErr1 (some (joinLines ls)) m t job labels v hl)
    ∧ (∀ (lockErr1 lockErr2 : Bool) (m : Str) (t : MetricType) (job : Str)
        (labels : List (Str × Str)) (v hl : Str),
      hasNL m = false → hasNL v = false →
      hasNL (helpDataFor m hl) = false → hasNL (typeDataFor m t) = false →
      splitFirst (needleFor m job labels) (helpDataFor m hl) = none →
      splitFirst (needleFor m job labels) (typeDataFor m t) = none →
      MetricWriter.WriteMetric lockErr2
          (MetricWriter.WriteMetric lockErr1 none m t job labels v hl)
          m t job labels v hl
        = MetricWriter.WriteMetric lockErr1 none m t job labels v hl) := by
  have main : ∀ (lockErr1 lockErr2 : Bool) (m : Str) (t : MetricType) (job : Str)
      (labels : List (Str × Str)) (v hl : Str) (ls : List Str),
      hasNL m = false → hasNL v = false →
      hasNL (helpDataFor m hl) = false → hasNL (typeDataFor m t) = false →
      splitFirst (needleFor m job labels) (helpDataFor m hl) = none →
      splitFirst (needleFor m job labels) (typeDataFor m t) = none →
      (∀ l ∈ ls, hasNL l = false) →
      MetricWriter.WriteMetric lockErr2
          (MetricWriter.WriteMetric lockErr1 (some (joinLines ls)) m t job labels v hl)
          m t job labels v hl
        = MetricWriter.WriteMetric lockErr1 (some (joinLines ls)) m t job labels v hl := by
    intro lockErr1 lockErr2 m t job labels v hl ls hm hv hhelpnl htypenl hhelpsf htypesf hlines
    have hne := needleFor_ne_nil m job labels
    have hneednl := hasNL_needleFor m job labels hm
    have hnl : hasNL (needleFor m job labels ++ ' ' :: v) = false := by
      rw [hasNL_append, hneednl, hasNL_cons_ne _ (by decide), hv]
      rfl
    by_cases hmatch : ls.any (fun l => (splitFirst (needleFor m job labels) l).isSome) = true
    · rw [writeMetric_replaces lockErr1 m t job labels v hl ls hm hlines hmatch]
      have hlines2 : ∀ l' ∈ ls.map (rewriteLine (needleFor m job labels)
          (needleFor m job labels ++ ' ' :: v)), hasNL l' = false := by
        intro l' hl'
        obtain ⟨l0, hl0, rfl⟩ := List.mem_map.mp hl'
        exact hasNL_rewriteLine (hlines l0 hl0) hnl
      obtain ⟨l0, hl0mem, hl0some⟩ := List.any_eq_true.mp hmatch
      rcases hsp0 : splitFirst (needleFor m job labels) l0 with _ | ⟨b0, a0⟩
      · rw [hsp0] at hl0some
        cases hl0some
      have hmatch2 : (ls.map (rewriteLine (needleFor m job labels)
            (needleFor m job labels ++ ' ' :: v))).any
            (fun l => (splitFirst (needleFor m job labels) l).isSome) = true :=
        List.any_eq_true.mpr ⟨_, List.mem_map_of_mem _ hl0mem,
          rewriteLine_keeps_needle hne hsp0⟩
      rw [writeMetric_replaces lockErr2 m t job labels v hl _ hm hlines2 hmatch2]
      have hmapmap : (ls.map (rewriteLine (needleFor m job labels)
            (needleFor m job labels ++ ' ' :: v))).map
            (rewriteLine (needleFor m job labels) (needleFor m job labels ++ ' ' :: v))
          = ls.map (rewriteLine (needleFor m job labels)
            (needleFor m job labels ++ ' ' :: v)) := by
        apply map_eq_self_of_eq
        intro l' hl'
        obtain ⟨l0', _, rfl⟩ := List.mem_map.mp hl'
        exact rewriteLine_idem (' ' :: v) hne
      rw [hmapmap]
    · have hmatchf : ls.any (fun l => (splitFirst (needleFor m job labels) l).isSome)
          = false := bool_eq_false_of_not_true hmatch
      rw [writeMetric_appends lockErr1 m t job labels v hl ls hm hlines hmatchf]
      rw [show addMetricHeaders (joinLines ls) m t hl
        = addTypeHeader (addHelpHeader (joinLines ls) m hl) m t from rfl]
      rw [addHelpHeader_lines, addTypeHeader_lines]
      rw [List.append_assoc, ← joinLines_singleton (needleFor m job labels ++ ' ' :: v),
        ← joinLines_append]
      have hmemchar : ∀ l ∈ ((ls ++ (if containsSub (helpDataFor m hl) (joinLines ls) then []
            else [helpDataFor m hl]))
          ++ (if containsSub (typeDataFor m t)
              (joinLines (ls ++ (if containsSub (helpDataFor m hl) (joinLines ls) then []
                else [helpDataFor m hl]))) then []
            else [typeDataFor m t]))
          ++ [needleFor m job labels ++ ' ' :: v],
          l ∈ ls ∨ l = helpDataFor m hl ∨ l = typeDataFor m t
            ∨ l = needleFor m job labels ++ ' ' :: v := by
        intro l hlmem
        rcases List.mem_append.mp hlmem with h | h
        · rcases List.mem_append.mp h with h' | h'
          · rcases List.mem_append.mp h' with h'' | h''
            · exact Or.inl h''
            · exact Or.inr (Or.inl (mem_opt h''))
          · exact Or.inr (Or.inr (Or.inl (mem_opt h')))
        · exact Or.inr (Or.inr (Or.inr (List.mem_singleton.mp h)))
      have hlines1 : ∀ l ∈ ((ls ++ (if containsSub (helpDataFor m hl) (joinLines ls) then []
            else [helpDataFor m hl]))
          ++ (if containsSub (typeDataFor m t)
              (joinLines (ls ++ (if containsSub (helpDataFor m hl) (joinLines ls) then []
                else [helpDataFor m hl]))) then []
            else [typeDataFor m t]))
          ++ [needleFor m job labels ++ ' ' :: v], hasNL l = false := by
        intro l hlmem
        rcases hmemchar l hlmem with h | h | h | h
        · exact hlines l h
        · rw [h]
          exact hhelpnl
        · rw [h]
          exact htypenl
        · rw [h]
          exact hnl
      have hself : splitFirst (needleFor m job labels)
          (needleFor m job labels ++ ' ' :: v) = some ([], ' ' :: v) :=
        splitFirst_self_append (needleFor m job labels) (' ' :: v) hne
      have hmatch1 : (((ls ++ (if containsSub (helpDataFor m hl) (joinLines ls) then []
            else [helpDataFor m hl]))
          ++ (if containsSub (typeDataFor m t)
              (joinLines (ls ++ (if containsSub (helpDataFor m hl) (joinLines ls) then []
                else [helpDataFor m hl]))) then []
            else [typeDataFor m t]))
          ++ [needleFor m job labels ++ ' ' :: v]).any
          (fun l => (splitFirst (needleFor m job labels) l).isSome) = true :=
        List.any_eq_true.mpr ⟨needleFor m job labels ++ ' ' :: v, by simp,
          by rw [hself]; rfl⟩
      rw [writeMetric_replaces lockErr2 m t job labels v hl _ hm hlines1 hmatch1]
      have hstable : (((ls ++ (if containsSub (helpDataFor m hl) (joinLines ls) then []
            else [helpDataFor m hl]))
          ++ (if containsSub (typeDataFor m t)
              (joinLines (ls ++ (if containsSub (helpDataFor m hl) (joinLines ls) then []
                else [helpDataFor m hl]))) then []
            else [typeDataFor m t]))
          ++ [needleFor m job labels ++ ' ' :: v]).map
          (rewriteLine (needleFor m job labels) (needleFor m job labels ++ ' ' :: v))
          = ((ls ++ (if containsSub (helpDataFor m hl) (joinLines ls) then []
            else [helpDataFor m hl]))
          ++ (if containsSub (typeDataFor m t)
              (joinLines (ls ++ (if containsSub (helpDataFor m hl) (joinLines ls) then []
                else [helpDataFor m hl]))) then []
            else [typeDataFor m t]))
          ++ [needleFor m job labels ++ ' ' :: v] := by
        apply map_eq_self_of_eq
        intro l hlmem
        rcases hmemchar l hlmem with h | h | h | h
        · have hnone := (List.any_eq_false.mp hmatchf) l h
          rw [Option.not_isSome_iff_eq_none] at hnone
          exact rewriteLine_none hnone
        · rw [h]
          exact rewriteLine_none hhelpsf
        · rw [h]
          exact rewriteLine_none htypesf
        · rw [h, rewriteLine_some hself, List.nil_append]
      rw [hstable]
  constructor
  · exact main
  · intro lockErr1 lockErr2 m t job labels v hl hm hv hhelpnl htypenl hhelpsf htypesf
    have e : MetricWriter.WriteMetric lockErr1 none m t job labels v hl
        = MetricWriter.WriteMetric lockErr1 (some (joinLines [])) m t job labels v hl := rfl
    rw [e]
    exact main lockErr1 lockErr2 m t job labels v hl [] hm hv hhelpnl htypenl hhelpsf htypesf
      (fun l h => absurd h (by simp))

/-- Witness for C8: the identical gauge write applied twice from an
absent file, with newline-free arguments. -/
theorem C8_witness :
    MetricWriter.WriteMetric false
        (MetricWriter.WriteMetric false none (lit "m8") MetricType.gauge (lit "j8") []
          (lit "3") (lit "h8"))
        (lit "m8") MetricType.gauge (lit "j8") [] (lit "3") (lit "h8")
      = MetricWriter.WriteMetric false none (lit "m8") MetricType.gauge (lit "j8") []
          (lit "3") (lit "h8") :=
  C8_idempotent.2 false false (lit "m8") MetricType.gauge (lit "j8") [] (lit "3") (lit "h8")
    (by decide) (by decide) (by decide) (by decide) (by decide) (by decide)

/-! ### Claim C2: header uniqueness — auxiliary lemmas -/

theorem containsSub_eq_isSome {pat : Str} (hne : pat ≠ []) (l : Str) :
    containsSub pat l = (splitFirst pat l).isSome := by
  induction l with
  | nil =>
    rw [containsSub, splitFirst, isEmpty_false_of_ne_nil hne]
    rfl
  | cons c rest ih =>
    rw [containsSub, splitFirst]
    by_cases hs : strStarts pat (c :: rest) = true
    · rw [hs]
      simp
    · have hs' : strStarts pat (c :: rest) = false := bool_eq_false_of_not_true hs
      rw [hs', ih]
      rcases splitFirst pat rest with _ | ⟨b, a⟩ <;> simp

theorem containsSub_of_strStarts {pat l : Str} (hne : pat ≠ []) (hs : strStarts pat l = true) :
    containsSub pat l = true := by
  cases l with
  | nil =>
    cases pat with
    | nil => exact absurd rfl hne
    | cons a p => cases hs
  | cons c rest =>
    rw [containsSub, hs]
    rfl

theorem containsSub_of_decomp {pat l b a : Str} (hne : pat ≠ []) (h : l = b ++ pat ++ a) :
    containsSub pat l = true := by
  rw [containsSub_eq_isSome hne]
  exact splitFirst_isSome_of_decomp hne h

theorem strStarts_cancel (x s t : Str) : strStarts (x ++ s) (x ++ t) = strStarts s t := by
  induction x with
  | nil => rfl
  | cons c x ih => simp [strStarts, ih]

theorem takeWhile_stop (q : Char → Bool) (p : Str) {c : Char} (t : Str)
    (hp : ∀ x ∈ p, q x = true) (hc : q c = false) :
    List.takeWhile q (p ++ c :: t) = p := by
  induction p with
  | nil => simp [List.takeWhile_cons, hc]
  | cons d p ih =>
    rw [List.cons_append, List.takeWhile_cons, hp d (by simp), if_pos rfl,
      ih (fun x hx => hp x (by simp [hx]))]

/-- A sample line as stored in the exposition file: metric name, label
string, value. -/
def sampleLineFor (m lam v : Str) : Str := (m ++ '\x7b' :: lam) ++ '\x7d' :: ' ' :: v

theorem notMem_q_true {s : Str} {c0 : Char} (hs : c0 ∉ s) :
    ∀ x ∈ s, (!(x == c0)) = true := by
  intro x hx
  simp only [Bool.not_eq_true', beq_eq_false_iff_ne, ne_eq]
  intro hxc
  exact hs (hxc ▸ hx)

theorem splitFirst_sample_other (m lam1 lam2 v : Str)
    (hm : '\x7b' ∉ m) (hl1b : '\x7b' ∉ lam1) (hl1c : '\x7d' ∉ lam1)
    (hl2b : '\x7b' ∉ lam2) (hl2c : '\x7d' ∉ lam2)
    (hvb : '\x7b' ∉ v) (hne : lam1 ≠ lam2) :
    splitFirst ((m ++ '\x7b' :: lam2) ++ ['\x7d']) (sampleLineFor m lam1 v) = none := by
  rcases hsf : splitFirst ((m ++ '\x7b' :: lam2) ++ ['\x7d']) (sampleLineFor m lam1 v)
    with _ | ⟨b, a⟩
  · rfl
  exfalso
  have hdec := splitFirst_eq_some hsf
  have hcm : m.count '\x7b' = 0 := List.count_eq_zero.mpr hm
  have hc1 : lam1.count '\x7b' = 0 := List.count_eq_zero.mpr hl1b
  have hc2 : lam2.count '\x7b' = 0 := List.count_eq_zero.mpr hl2b
  have hcv : v.count '\x7b' = 0 := List.count_eq_zero.mpr hvb
  have hcount1 : (sampleLineFor m lam1 v).count '\x7b' = 1 := by
    unfold sampleLineFor
    rw [List.count_append, List.count_append, List.count_cons, List.count_cons,
      List.count_cons]
    simp [hcm, hc1, hcv]
  have hcount2 : ((m ++ '\x7b' :: lam2) ++ ['\x7d']).count '\x7b' = 1 := by
    rw [List.count_append, List.count_append, List.count_cons]
    simp [hcm, hc2]
  have hcountba : b.count '\x7b' + ((m ++ '\x7b' :: lam2) ++ ['\x7d']).count '\x7b'
      + a.count '\x7b' = 1 := by
    have := congrArg (List.count '\x7b') hdec
    rw [hcount1, List.count_append, List.count_append] at this
    omega
  have hbfree : '\x7b' ∉ b := by
    rw [← List.count_eq_zero]
    omega
  have hafree : '\x7b' ∉ a := by
    rw [← List.count_eq_zero]
    omega
  -- leading segments before the first brace agree, forcing b = []
  have htw1 : List.takeWhile (fun c => !(c == '\x7b')) (sampleLineFor m lam1 v) = m := by
    have hshape : sampleLineFor m lam1 v = m ++ '\x7b' :: (lam1 ++ '\x7d' :: ' ' :: v) := by
      unfold sampleLineFor
      simp [List.append_assoc]
    rw [hshape]
    exact takeWhile_stop _ m _ (notMem_q_true hm) (by simp)
  have htw2 : List.takeWhile (fun c => !(c == '\x7b'))
      ((b ++ ((m ++ '\x7b' :: lam2) ++ ['\x7d'])) ++ a) = b ++ m := by
    have hshape : (b ++ ((m ++ '\x7b' :: lam2) ++ ['\x7d'])) ++ a
        = (b ++ m) ++ '\x7b' :: (lam2 ++ '\x7d' :: a) := by
      simp [List.append_assoc]
    rw [hshape]
    refine takeWhile_stop _ (b ++ m) _ ?_ (by simp)
    intro x hx
    rcases List.mem_append.mp hx with h | h
    · exact notMem_q_true hbfree x h
    · exact notMem_q_true hm x h
  have hbm : m = b ++ m := by
    have h3 := congrArg (List.takeWhile (fun c => !(c == '\x7b'))) hdec
    rw [htw1, htw2] at h3
    exact h3
  have hbnil : b = [] := by
    have := congrArg List.length hbm
    simp at this
    exact this
  subst hbnil
  rw [List.nil_append] at hdec
  have h1 : sampleLineFor m lam1 v = m ++ '\x7b' :: (lam1 ++ '\x7d' :: ' ' :: v) := by
    unfold sampleLineFor
    simp [List.append_assoc]
  have h2 : (m ++ '\x7b' :: lam2 ++ ['\x7d']) ++ a
      = m ++ '\x7b' :: (lam2 ++ '\x7d' :: a) := by
    simp [List.append_assoc]
  rw [h1, h2] at hdec
  have hinner := List.append_cancel_left hdec
  have hinner2 : lam1 ++ '\x7d' :: ' ' :: v = lam2 ++ '\x7d' :: a := by
    injection hinner
  have htwa : List.takeWhile (fun c => !(c == '\x7d')) (lam1 ++ '\x7d' :: ' ' :: v)
      = lam1 := takeWhile_stop _ lam1 _ (notMem_q_true hl1c) (by simp)
  have htwb : List.takeWhile (fun c => !(c == '\x7d')) (lam2 ++ '\x7d' :: a)
      = lam2 := takeWhile_stop _ lam2 _ (notMem_q_true hl2c) (by simp)
  exact hne (by rw [← htwa, hinner2, htwb])

theorem render_clean (t : MetricType) :
    '\x7b' ∉ t.render ∧ '\x7d' ∉ t.render ∧ hasNL t.render = false := by
  cases t
  · exact ⟨by decide, by decide, by decide⟩
  · exact ⟨by decide, by decide, by decide⟩

theorem brace_not_mem_helpData {m h : Str} (hm : '\x7b' ∉ m) (hh : '\x7b' ∉ h) :
    '\x7b' ∉ helpDataFor m h := by
  unfold helpDataFor
  intro hmem
  rcases List.mem_append.mp hmem with h1 | h1
  · rcases List.mem_append.mp h1 with h2 | h2
    · exact absurd h2 (by decide)
    · exact hm h2
  · rcases List.mem_cons.mp h1 with h2 | h2
    · exact absurd h2 (by decide)
    · exact hh h2

theorem brace_not_mem_typeData {m : Str} (t : MetricType) (hm : '\x7b' ∉ m) :
    '\x7b' ∉ typeDataFor m t := by
  unfold typeDataFor
  intro hmem
  rcases List.mem_append.mp hmem with h1 | h1
  · rcases List.mem_append.mp h1 with h2 | h2
    · exact absurd h2 (by decide)
    · exact hm h2
  · rcases List.mem_cons.mp h1 with h2 | h2
    · exact absurd h2 (by decide)
    · exact (render_clean t).1 h2

theorem hasNL_helpDataFor {m h : Str} (hm : hasNL m = false) (hh : hasNL h = false) :
    hasNL (helpDataFor m h) = false := by
  have e0 : hasNL (lit "# HELP ") = false := by decide
  unfold helpDataFor
  simp [hasNL_append, hm, hh, e0, hasNL_cons_ne _ (by decide : (' ' : Char) ≠ '\n')]

theorem hasNL_typeDataFor {m : Str} (t : MetricType) (hm : hasNL m = false) :
    hasNL (typeDataFor m t) = false := by
  have e0 : hasNL (lit "# TYPE ") = false := by decide
  unfold typeDataFor
  simp [hasNL_append, hm, e0, (render_clean t).2.2,
    hasNL_cons_ne _ (by decide : (' ' : Char) ≠ '\n')]

theorem hasNL_sampleLineFor {m lam v : Str} (hm : hasNL m = false)
    (hlam : hasNL lam = false) (hv : hasNL v = false) :
    hasNL (sampleLineFor m lam v) = false := by
  unfold sampleLineFor
  simp [hasNL_append, hm, hlam, hv,
    hasNL_cons_ne _ (by decide : ('\x7b' : Char) ≠ '\n'),
    hasNL_cons_ne _ (by decide : ('\x7d' : Char) ≠ '\n'),
    hasNL_cons_ne _ (by decide : (' ' : Char) ≠ '\n')]

theorem helpDataFor_ne_nil (m h : Str) : helpDataFor m h ≠ [] := by
  unfold helpDataFor
  simp

theorem typeDataFor_ne_nil (m : Str) (t : MetricType) : typeDataFor m t ≠ [] := by
  unfold typeDataFor
  simp

theorem take_lit7 (x y : Str) (hx : x.length = 7) : (x ++ y).take 7 = x := by
  rw [← hx]
  exact List.take_left x y

theorem strStarts_neq_head7 {A B X Y : Str} (hA : A.length = 7) (hB : B.length = 7)
    (hAB : A ≠ B) : strStarts (A ++ X) (B ++ Y) = false := by
  cases hval : strStarts (A ++ X) (B ++ Y)
  · rfl
  · exfalso
    obtain ⟨u, hu⟩ := (strStarts_iff _ _).mp hval
    apply hAB
    have h7 : (B ++ Y).take 7 = B := take_lit7 B Y hB
    rw [hu, List.append_assoc, take_lit7 A (X ++ u) hA] at h7
    exact h7

theorem strStarts_hash_sample {m lam v X : Str} (hm_ne : m ≠ []) (hm_hash : '#' ∉ m) :
    strStarts ('#' :: X) (sampleLineFor m lam v) = false := by
  cases m with
  | nil => exact absurd rfl hm_ne
  | cons c m' =>
    rw [show sampleLineFor (c :: m') lam v
      = c :: ((m' ++ '\x7b' :: lam) ++ '\x7d' :: ' ' :: v) from by simp [sampleLineFor]]
    have hc : ¬ ('#' = c) := by
      intro hcc
      exact hm_hash (by rw [hcc]; exact List.mem_cons_self c m')
    simp [strStarts, hc]

/-! ### Claim C2: invariant machinery -/

/-- One facade-level write request to the fixed metric name. -/
structure WriteReq where
  job : Str
  labels : List (Str × Str)
  value : Str

/-- Apply a sequence of `WriteMetric` calls with a fixed metric name,
kind and help text. -/
def applyWrites (m : Str) (t : MetricType) (h : Str) : Option Str → List WriteReq → Option Str
  | file, [] => file
  | file, w :: ws =>
    applyWrites m t h (MetricWriter.WriteMetric false file m t w.job w.labels w.value h) ws

/-- Cleanliness of a stored (label string, value) pair: no braces, no
newlines. -/
def CleanPair (p : Str × Str) : Prop :=
  '\x7b' ∉ p.1 ∧ '\x7d' ∉ p.1 ∧ hasNL p.1 = false
    ∧ '\x7b' ∉ p.2 ∧ '\x7d' ∉ p.2 ∧ hasNL p.2 = false

/-- Cleanliness of a write request: its serialized label string and its
value contain no braces, and the value no newline. -/
def CleanReq (w : WriteReq) : Prop :=
  '\x7b' ∉ buildLabelString w.job w.labels ∧ '\x7d' ∉ buildLabelString w.job w.labels
    ∧ '\x7b' ∉ w.value ∧ '\x7d' ∉ w.value ∧ hasNL w.value = false

/-- Cleanliness of the metric name and help text. -/
def CleanMeta (m h : Str) : Prop :=
  m ≠ [] ∧ hasNL m = false ∧ '\x7b' ∉ m ∧ '\x7d' ∉ m ∧ '#' ∉ m
    ∧ hasNL h = false ∧ '\x7b' ∉ h ∧ '\x7d' ∉ h

/-- The shape of the exporter file after at least one completed write to
a single metric name: one `HELP` line, one `TYPE` line, then one sample
line per stored pair. -/
def StateInv (m : Str) (t : MetricType) (h : Str) (file : Option Str) : Prop :=
  ∃ samples : List (Str × Str), (∀ p ∈ samples, CleanPair p)
    ∧ file = some (joinLines (helpDataFor m h :: typeDataFor m t
        :: samples.map (fun p => sampleLineFor m p.1 p.2)))

theorem writeMetric_init_inv (m : Str) (t : MetricType) (h : Str) (w : WriteReq)
    (hmeta : CleanMeta m h)
    (hht : containsSub (typeDataFor m t) (helpDataFor m h ++ ['\n']) = false)
    (hw : CleanReq w) :
    StateInv m t h (MetricWriter.WriteMetric false none m t w.job w.labels w.value h) := by
  obtain ⟨hw1, hw2, hw3, hw4, hw5⟩ := hw
  refine ⟨[(buildLabelString w.job w.labels, w.value)], ?_, ?_⟩
  · intro p hp
    rw [List.mem_singleton.mp hp]
    exact ⟨hw1, hw2, hasNL_buildLabelString _ _, hw3, hw4, hw5⟩
  · rw [writeMetric_absent false m t w.job w.labels w.value h hht]
    have e : needleFor m w.job w.labels ++ ' ' :: w.value
        = sampleLineFor m (buildLabelString w.job w.labels) w.value := by
      simp [needleFor, sampleLineFor, List.append_assoc]
    rw [e]
    rfl

theorem splitFirst_none_of_not_mem (c : Char) {needle l : Str} (hc : c ∈ needle)
    (hl : c ∉ l) : splitFirst needle l = none := by
  rcases hsf : splitFirst needle l with _ | ⟨b, a⟩
  · rfl
  · exact absurd (mem_of_splitFirst_some hsf hc) hl

theorem stateInv_lines_nl (m : Str) (t : MetricType) (h : Str) (samples : List (Str × Str))
    (hm_nl : hasNL m = false) (hh_nl : hasNL h = false)
    (hclean : ∀ p ∈ samples, CleanPair p) :
    ∀ l ∈ (helpDataFor m h :: typeDataFor m t
      :: samples.map (fun p => sampleLineFor m p.1 p.2)), hasNL l = false := by
  intro l hl
  rcases List.mem_cons.mp hl with rfl | hl
  · exact hasNL_helpDataFor hm_nl hh_nl
  rcases List.mem_cons.mp hl with rfl | hl
  · exact hasNL_typeDataFor t hm_nl
  obtain ⟨p, hp, rfl⟩ := List.mem_map.mp hl
  obtain ⟨hq1, hq2, hq3, hq4, hq5, hq6⟩ := hclean p hp
  exact hasNL_sampleLineFor hm_nl hq3 hq6

theorem writeMetric_step_inv (m : Str) (t : MetricType) (h : Str) (w : WriteReq)
    (file : Option Str) (hmeta : CleanMeta m h) (hw : CleanReq w)
    (hinv : StateInv m t h file) :
    StateInv m t h (MetricWriter.WriteMetric false file m t w.job w.labels w.value h) := by
  obtain ⟨hm_ne, hm_nl, hm_ob, hm_cb, hm_hash, hh_nl, hh_ob, hh_cb⟩ := hmeta
  obtain ⟨hw1, hw2, hw3, hw4, hw5⟩ := hw
  obtain ⟨samples, hclean, rfl⟩ := hinv
  have hlamnl : hasNL (buildLabelString w.job w.labels) = false := hasNL_buildLabelString _ _
  have hneedle : needleFor m w.job w.labels
      = (m ++ '\x7b' :: buildLabelString w.job w.labels) ++ ['\x7d'] := rfl
  have hsl : ∀ v2 : Str, sampleLineFor m (buildLabelString w.job w.labels) v2
      = needleFor m w.job w.labels ++ ' ' :: v2 := by
    intro v2
    rw [hneedle]
    simp [sampleLineFor, List.append_assoc]
  have hlinesnl := stateInv_lines_nl m t h samples hm_nl hh_nl hclean
  have hhelp_none : splitFirst (needleFor m w.job w.labels) (helpDataFor m h) = none := by
    apply splitFirst_none_of_not_mem '\x7b'
    · rw [hneedle]
      simp
    · exact brace_not_mem_helpData hm_ob hh_ob
  have htype_none : splitFirst (needleFor m w.job w.labels) (typeDataFor m t) = none := by
    apply splitFirst_none_of_not_mem '\x7b'
    · rw [hneedle]
      simp
    · exact brace_not_mem_typeData t hm_ob
  by_cases hex : samples.any
      (fun p => decide (p.1 = buildLabelString w.job w.labels)) = true
  · obtain ⟨p0, hp0mem, hp0dec⟩ := List.any_eq_true.mp hex
    have hp0 : p0.1 = buildLabelString w.job w.labels := of_decide_eq_true hp0dec
    have hmatch : (helpDataFor m h :: typeDataFor m t
        :: samples.map (fun p => sampleLineFor m p.1 p.2)).any
          (fun l => (splitFirst (needleFor m w.job w.labels) l).isSome) = true := by
      refine List.any_eq_true.mpr ⟨sampleLineFor m p0.1 p0.2, ?_, ?_⟩
      · simp only [List.mem_cons, List.mem_map]
        exact Or.inr (Or.inr ⟨p0, hp0mem, rfl⟩)
      · show (splitFirst (needleFor m w.job w.labels) (sampleLineFor m p0.1 p0.2)).isSome = true
        rw [hp0, hsl p0.2,
          splitFirst_self_append _ _ (needleFor_ne_nil m w.job w.labels)]
        rfl
    rw [writeMetric_replaces false m t w.job w.labels w.value h _ hm_nl hlinesnl hmatch]
    refine ⟨samples.map (fun p => if p.1 = buildLabelString w.job w.labels
        then (buildLabelString w.job w.labels, w.value) else p), ?_, ?_⟩
    · intro p hp
      obtain ⟨q, hq, rfl⟩ := List.mem_map.mp hp
      by_cases hq1 : q.1 = buildLabelString w.job w.labels
      · rw [if_pos hq1]
        exact ⟨hw1, hw2, hlamnl, hw3, hw4, hw5⟩
      · rw [if_neg hq1]
        exact hclean q hq
    · refine congrArg some (congrArg joinLines ?_)
      rw [List.map_cons, List.map_cons, rewriteLine_none hhelp_none,
        rewriteLine_none htype_none, List.map_map, List.map_map]
      refine congrArg (fun x => helpDataFor m h :: typeDataFor m t :: x) ?_
      apply List.map_congr_left
      intro p hp
      simp only [Function.comp_apply]
      by_cases hp1 : p.1 = buildLabelString w.job w.labels
      · have hrw : rewriteLine (needleFor m w.job w.labels)
            (needleFor m w.job w.labels ++ ' ' :: w.value) (sampleLineFor m p.1 p.2)
            = needleFor m w.job w.labels ++ ' ' :: w.value := by
          rw [hp1, hsl p.2, rewriteLine_some (splitFirst_self_append _ _
            (needleFor_ne_nil m w.job w.labels)), List.nil_append]
        rw [hrw, if_pos hp1]
        exact (hsl w.value).symm
      · have hnone : splitFirst (needleFor m w.job w.labels)
            (sampleLineFor m p.1 p.2) = none := by
          obtain ⟨hq1, hq2, hq3, hq4, hq5, hq6⟩ := hclean p hp
          rw [hneedle]
          exact splitFirst_sample_other m p.1 (buildLabelString w.job w.labels) p.2
            hm_ob hq1 hq2 hw1 hw2 hq4 hp1
        rw [rewriteLine_none hnone, if_neg hp1]
  · have hallne : ∀ p ∈ samples, ¬ p.1 = buildLabelString w.job w.labels := by
      intro p hp hcontra
      exact hex (List.any_eq_true.mpr ⟨p, hp, decide_eq_true hcontra⟩)
    have hsamp_none : ∀ p ∈ samples, splitFirst (needleFor m w.job w.labels)
        (sampleLineFor m p.1 p.2) = none := by
      intro p hp
      obtain ⟨hq1, hq2, hq3, hq4, hq5, hq6⟩ := hclean p hp
      rw [hneedle]
      exact splitFirst_sample_other m p.1 (buildLabelString w.job w.labels) p.2
        hm_ob hq1 hq2 hw1 hw2 hq4 (hallne p hp)
    have hmatchf : (helpDataFor m h :: typeDataFor m t
        :: samples.map (fun p => sampleLineFor m p.1 p.2)).any
          (fun l => (splitFirst (needleFor m w.job w.labels) l).isSome) = false := by
      cases hval : (helpDataFor m h :: typeDataFor m t
        :: samples.map (fun p => sampleLineFor m p.1 p.2)).any
          (fun l => (splitFirst (needleFor m w.job w.labels) l).isSome)
      · rfl
      · exfalso
        obtain ⟨l, hl, hlsome⟩ := List.any_eq_true.mp hval
        rcases List.mem_cons.mp hl with rfl | hl
        · have hc : (splitFirst (needleFor m w.job w.labels)
              (helpDataFor m h)).isSome = true := hlsome
          rw [hhelp_none] at hc
          exact Bool.false_ne_true hc
        rcases List.mem_cons.mp hl with rfl | hl
        · have hc : (splitFirst (needleFor m w.job w.labels)
              (typeDataFor m t)).isSome = true := hlsome
          rw [htype_none] at hc
          exact Bool.false_ne_true hc
        · obtain ⟨p, hp, rfl⟩ := List.mem_map.mp hl
          have hc : (splitFirst (needleFor m w.job w.labels)
              (sampleLineFor m p.1 p.2)).isSome = true := hlsome
          rw [hsamp_none p hp] at hc
          exact Bool.false_ne_true hc
    rw [writeMetric_appends false m t w.job w.labels w.value h _ hm_nl hlinesnl hmatchf]
    have hhelppres : containsSub (helpDataFor m h)
        (joinLines (helpDataFor m h :: typeDataFor m t
          :: samples.map (fun p => sampleLineFor m p.1 p.2))) = true := by
      apply containsSub_of_strStarts (helpDataFor_ne_nil m h)
      rw [joinLines]
      exact strStarts_append _ _
    have htypepres : containsSub (typeDataFor m t)
        (joinLines (helpDataFor m h :: typeDataFor m t
          :: samples.map (fun p => sampleLineFor m p.1 p.2))) = true := by
      have hdec : joinLines (helpDataFor m h :: typeDataFor m t
          :: samples.map (fun p => sampleLineFor m p.1 p.2))
          = (helpDataFor m h ++ ['\n']) ++ typeDataFor m t
            ++ '\n' :: joinLines (samples.map (fun p => sampleLineFor m p.1 p.2)) := by
        rw [joinLines, joinLines]
        simp [List.append_assoc]
      exact containsSub_of_decomp (typeDataFor_ne_nil m t) hdec
    have haddm : addMetricHeaders (joinLines (helpDataFor m h :: typeDataFor m t
        :: samples.map (fun p => sampleLineFor m p.1 p.2))) m t h
        = joinLines (helpDataFor m h :: typeDataFor m t
          :: samples.map (fun p => sampleLineFor m p.1 p.2)) := by
      unfold addMetricHeaders addHelpHeader
      rw [if_pos hhelppres]
      unfold addTypeHeader
      rw [if_pos htypepres]
    refine ⟨samples ++ [(buildLabelString w.job w.labels, w.value)], ?_, ?_⟩
    · intro p hp
      rcases List.mem_append.mp hp with h1 | h1
      · exact hclean p h1
      · rw [List.mem_singleton.mp h1]
        exact ⟨hw1, hw2, hlamnl, hw3, hw4, hw5⟩
    · refine congrArg some ?_
      rw [haddm, List.append_assoc, ← joinLines_singleton, ← joinLines_append]
      refine congrArg joinLines ?_
      rw [List.map_append]
      simp only [List.cons_append, List.map_cons, List.map_nil]
      rw [hsl w.value]

theorem applyWrites_inv (m : Str) (t : MetricType) (h : Str) (hmeta : CleanMeta m h)
    (ws : List WriteReq) (hws : ∀ w ∈ ws, CleanReq w) (file : Option Str)
    (hinv : StateInv m t h file) :
    StateInv m t h (applyWrites m t h file ws) := by
  induction ws generalizing file with
  | nil => exact hinv
  | cons w ws ih =>
    rw [applyWrites]
    exact ih (fun x hx => hws x (List.mem_cons_of_mem w hx)) _
      (writeMetric_step_inv m t h w file hmeta (hws w (List.mem_cons_self w ws)) hinv)

theorem linesStartingWith_some (p c : Str) :
    linesStartingWith p (some c)
      = ((splitLines c).filter (fun l => strStarts p l)).length := rfl

theorem filter_eq_nil_of_false (q : Str → Bool) (ls : List Str)
    (h : ∀ l ∈ ls, q l = false) : ls.filter q = [] := by
  induction ls with
  | nil => rfl
  | cons l ls ih =>
    rw [List.filter_cons, h l (List.mem_cons_self l ls)]
    exact ih (fun x hx => h x (List.mem_cons_of_mem l hx))

theorem stateInv_counts (m : Str) (t : MetricType) (h : Str) (file : Option Str)
    (hmeta : CleanMeta m h) (hinv : StateInv m t h file) :
    linesStartingWith (lit "# HELP " ++ m ++ [' ']) file = 1
      ∧ linesStartingWith (lit "# TYPE " ++ m ++ [' ']) file = 1 := by
  obtain ⟨hm_ne, hm_nl, hm_ob, hm_cb, hm_hash, hh_nl, hh_ob, hh_cb⟩ := hmeta
  obtain ⟨samples, hclean, rfl⟩ := hinv
  have hH_help : strStarts (lit "# HELP " ++ m ++ [' ']) (helpDataFor m h) = true := by
    apply (strStarts_iff _ _).mpr
    exact ⟨h, by unfold helpDataFor; simp [List.append_assoc]⟩
  have hT_type : strStarts (lit "# TYPE " ++ m ++ [' ']) (typeDataFor m t) = true := by
    apply (strStarts_iff _ _).mpr
    exact ⟨t.render, by unfold typeDataFor; simp [List.append_assoc]⟩
  have hH_type : strStarts (lit "# HELP " ++ m ++ [' ']) (typeDataFor m t) = false := by
    unfold typeDataFor
    rw [show (lit "# HELP " ++ m ++ [' '] : Str) = lit "# HELP " ++ (m ++ [' '])
      from by rw [List.append_assoc]]
    rw [show (lit "# TYPE " ++ m ++ ' ' :: t.render : Str)
      = lit "# TYPE " ++ (m ++ ' ' :: t.render) from by rw [List.append_assoc]]
    exact strStarts_neq_head7 (by decide) (by decide) (by decide)
  have hT_help : strStarts (lit "# TYPE " ++ m ++ [' ']) (helpDataFor m h) = false := by
    unfold helpDataFor
    rw [show (lit "# TYPE " ++ m ++ [' '] : Str) = lit "# TYPE " ++ (m ++ [' '])
      from by rw [List.append_assoc]]
    rw [show (lit "# HELP " ++ m ++ ' ' :: h : Str)
      = lit "# HELP " ++ (m ++ ' ' :: h) from by rw [List.append_assoc]]
    exact strStarts_neq_head7 (by decide) (by decide) (by decide)
  have hH_samp : ∀ p ∈ samples,
      strStarts (lit "# HELP " ++ m ++ [' ']) (sampleLineFor m p.1 p.2) = false := by
    intro p hp
    rw [show (lit "# HELP " ++ m ++ [' '] : Str)
      = '#' :: (lit " HELP " ++ m ++ [' ']) from rfl]
    exact strStarts_hash_sample hm_ne hm_hash
  have hT_samp : ∀ p ∈ samples,
      strStarts (lit "# TYPE " ++ m ++ [' ']) (sampleLineFor m p.1 p.2) = false := by
    intro p hp
    rw [show (lit "# TYPE " ++ m ++ [' '] : Str)
      = '#' :: (lit " TYPE " ++ m ++ [' ']) from rfl]
    exact strStarts_hash_sample hm_ne hm_hash
  rw [linesStartingWith_some, linesStartingWith_some,
    splitLines_joinLines _ (stateInv_lines_nl m t h samples hm_nl hh_nl hclean)]
  constructor
  · rw [List.filter_cons, List.filter_cons]
    rw [if_pos hH_help, if_neg (by rw [hH_type]; exact Bool.false_ne_true)]
    rw [filter_eq_nil_of_false _ _ (by
      intro l hl
      obtain ⟨p, hp, rfl⟩ := List.mem_map.mp hl
      exact hH_samp p hp)]
    simp
  · rw [List.filter_cons, List.filter_cons]
    rw [if_neg (by rw [hT_help]; exact Bool.false_ne_true), if_pos hT_type]
    rw [filter_eq_nil_of_false _ _ (by
      intro l hl
      obtain ⟨p, hp, rfl⟩ := List.mem_map.mp hl
      exact hT_samp p hp)]
    simp

/-- C2 counterexample: the claim extends header uniqueness to "writes that
supply different help text for the same metric name"; header deduplication
is by exact substring match of the full `HELP` line, so a second write to
the same metric name `cv` with a different help text appends a second
`# HELP cv ...` line. -/
theorem C2_counterexample :
    linesStartingWith (lit "# HELP " ++ lit "cv" ++ [' '])
      (MetricWriter.WriteMetric false
        (MetricWriter.WriteMetric false none (lit "cv") MetricType.gauge
          (lit "a") [] (lit "1") (lit "ha"))
        (lit "cv") MetricType.gauge (lit "b") [] (lit "1") (lit "hb")) = 2 := by
  decide

/-- C2 (amended): for every non-empty sequence of completed writes to a
single metric name that all use the same metric kind and the same help
text, starting from an absent file, the resulting file has exactly one
`# HELP <name> ` line and exactly one `# TYPE <name> ` line — including
writes that use different label sets — provided the name, help text,
label strings and values are free of braces and newlines, the name is
non-empty and free of `#`, and the `TYPE` line does not occur inside the
`HELP` line. -/
theorem C2_headers_unique (m : Str) (t : MetricType) (h : Str) (ws : List WriteReq)
    (hmeta : CleanMeta m h)
    (hht : containsSub (typeDataFor m t) (helpDataFor m h ++ ['\n']) = false)
    (hws : ∀ w ∈ ws, CleanReq w) (hne : ws ≠ []) :
    linesStartingWith (lit "# HELP " ++ m ++ [' ']) (applyWrites m t h none ws) = 1
      ∧ linesStartingWith (lit "# TYPE " ++ m ++ [' ']) (applyWrites m t h none ws) = 1 := by
  cases ws with
  | nil => exact absurd rfl hne
  | cons w ws =>
    rw [applyWrites]
    exact stateInv_counts m t h _ hmeta
      (applyWrites_inv m t h hmeta ws (fun x hx => hws x (List.mem_cons_of_mem w hx)) _
        (writeMetric_init_inv m t h w hmeta hht (hws w (List.mem_cons_self w ws))))

theorem C2_witness :
    linesStartingWith (lit "# HELP " ++ lit "cv" ++ [' '])
        (applyWrites (lit "cv") MetricType.gauge (lit "x") none
          [⟨lit "j", [], lit "1"⟩]) = 1
      ∧ linesStartingWith (lit "# TYPE " ++ lit "cv" ++ [' '])
        (applyWrites (lit "cv") MetricType.gauge (lit "x") none
          [⟨lit "j", [], lit "1"⟩]) = 1 :=
  C2_headers_unique (lit "cv") MetricType.gauge (lit "x") [⟨lit "j", [], lit "1"⟩]
    ⟨by decide, by decide, by decide, by decide, by decide, by decide, by decide, by decide⟩
    (by decide)
    (by
      intro w hw
      rw [List.mem_singleton.mp hw]
      exact ⟨by decide, by decide, by decide, by decide, by decide⟩)
    (List.cons_ne_nil _ _)

end CronManager
